import Mathlib

/-! ThreadPlanGotoUser: the "go to user code" single-step plan

A shallow embedding of `source/Target/ThreadPlanGotoUser.cpp`.

* The plan object is the record `State`; every member function becomes a function
  that takes the object (and what the thread, target and clock report at the moment
  of the call, the record `Env`) and gives back its return value and the new object.
* Addresses (`lldb::addr_t`, unsigned 64-bit) are natural numbers; the file only
  compares them and takes minima, so no wrap-around arithmetic occurs.
  `UINT64_MAX` is `2^64 - 1`.
* A null shared pointer that the source dereferences without a test
  (`GetStackFrameAtIndex(i)->`, `GetModuleAtIndex(i)->`) makes the embedded function
  return `none`.
* The observable effects the claims talk about (the two `printf` calls and the
  queries to the image list) are appended to the ghost field `State.trace`.
  The `LIBLLDB_LOG_STEP` log lines have no influence on any return value or field
  and are not recorded.
* `StackID` is declared outside this file; it is a type parameter.  `IsPlanStale`
  uses its `==` and `<`, which the specification requires to be a total order
  (`<` = younger), hence the `LinearOrder` instance argument.
-/

namespace ThreadPlanGotoUser

/-- The largest `lldb::addr_t`, the start value of the minimum in `GetModuleBaseAddr`. -/
def UINT64_MAX : Nat := 2 ^ 64 - 1

/-- Modelled from the spec: the stop reasons of `lldb::StopReason`, declared outside this
file.  The source names `eStopReasonTrace` and `eStopReasonNone`; the specification also
names breakpoint hits, signals and exceptions; every further reason is `other`. -/
inductive StopReason where
  | eStopReasonNone
  | eStopReasonTrace
  | eStopReasonBreakpoint
  | eStopReasonSignal
  | eStopReasonException
  | other (code : Nat)
deriving DecidableEq, Repr

/-- Modelled from the spec: `lldb::DescriptionLevel`, declared outside this file.  The
source tests only for `eDescriptionLevelBrief`; every other level is a detailed one. -/
inductive DescriptionLevel where
  | eDescriptionLevelBrief
  | detailed (code : Nat)
deriving DecidableEq, Repr

/-- Modelled from the spec: `lldb::StateType`, declared outside this file.  The source
names only `eStateStepping`. -/
inductive StateType where
  | eStateStepping
  | other (code : Nat)
deriving DecidableEq, Repr

/-- Modelled from the spec: a stack frame as the Frame Service shows it,
`FrameIdentity(frame)` and `SymbolAt(frame)` (an optional symbol). -/
structure StackFrame (StackID : Type) where
  stack_id : StackID
  symbol : Option String
deriving DecidableEq, Repr

/-- Modelled from the spec: a section, reduced to `LoadAddressOf(section, target)`,
the value `GetLoadBaseAddress(&target)` returns for it. -/
structure Section where
  load_base_address : Nat
deriving DecidableEq, Repr

/-- Modelled from the spec: a loaded image, reduced to `SectionsOf(image)`. -/
structure Module where
  sections : List Section
deriving DecidableEq, Repr

/-- What the collaborators report at the moment of one call: the register context
(`GetPC(0)`), the frame list (`GetStackFrameAtIndex`), the image list of the target
(`GetImages().GetModuleAtIndex`), the private stop info and the clock (`time(NULL)`). -/
structure Env (StackID : Type) where
  pc : Nat
  frames : List (StackFrame StackID)
  images : List Module
  stop_info : Option StopReason
  now : Int
deriving DecidableEq, Repr

/-- The observable effects of the plan, in the order they happen. -/
inductive Event where
  /-- One query to the image list, `target.GetImages().GetModuleAtIndex(index)`. -/
  | GetModuleAtIndex (index : Nat)
  /-- The `printf` of line 135, "start address : ... end address: ...". -/
  | printf_start_end (start_address end_address : Nat)
  /-- The `printf` of line 144, "goto user time consumed : ... s". -/
  | printf_time_consumed (secs : Int)
deriving DecidableEq, Repr

/-- The plan object: the data members of `ThreadPlanGotoUser`, the completion flag
`m_plan_complete` of its base class `ThreadPlan`, and the ghost `trace`. -/
structure State (StackID : Type) where
  m_instruction_addr : Nat
  m_stack_id : StackID
  m_parent_frame_id : Option StackID
  m_start_has_symbol : Bool
  m_stop_other_threads : Bool
  m_step_over : Bool
  m_takes_iteration_count : Bool
  m_start_time : Int
  m_start_address : Nat
  m_end_address : Nat
  m_done : Bool
  m_plan_complete : Bool
  trace : List Event
deriving DecidableEq, Repr

/-- Modelled from the spec: the output stream handed to `GetDescription`, declared outside
this file: the text written so far, and the rendering `Stream::Address(addr, addr_size)`
produces for an address. -/
structure Stream where
  text : String
  render_address : Nat → Nat → String

/-- Modelled from the spec: `Stream::Printf` with a constant format appends the text. -/
def Stream.Printf (s : Stream) (str : String) : Stream :=
  { s with text := s.text ++ str }

/-- Modelled from the spec: `Stream::Address` appends the rendering of the address. -/
def Stream.Address (s : Stream) (addr addr_size : Nat) : Stream :=
  { s with text := s.text ++ s.render_address addr addr_size }

/-- The value of `sizeof(addr_t)`. -/
def sizeof_addr_t : Nat := 8

variable {StackID : Type}

/-- Modelled from the spec: `ThreadPlan::SetPlanComplete()` of the base class marks the
plan complete. -/
def SetPlanComplete (s : State StackID) : State StackID :=
  { s with m_plan_complete := true }

/-- Modelled from the spec: `ThreadPlan::IsPlanComplete()` of the base class reads the
flag `SetPlanComplete` sets. -/
def IsPlanComplete (s : State StackID) : Bool :=
  s.m_plan_complete

/-- Modelled from the spec: `ThreadPlan::MischiefManaged()`, the generic completion
routine of the host, marks the plan complete. -/
def ThreadPlan.MischiefManaged (s : State StackID) : State StackID :=
  { s with m_plan_complete := true }

/-- The four values `SetUpState` (lines 50-61) captures: the program counter, the identity
of frame 0, whether frame 0 has a symbol, and the identity of frame 1 when there is one.
Frame 0 is dereferenced without a test. -/
def SetUpState (e : Env StackID) : Option (Nat × StackID × Bool × Option StackID) :=
  match e.frames[0]? with
  | none => none
  | some start_frame =>
    some (e.pc, start_frame.stack_id, start_frame.symbol.isSome,
      match e.frames[1]? with
      | some parent_frame => some parent_frame.stack_id
      | none => none)

/-- The constructor (lines 31-46). -/
def new (e : Env StackID) (step_over stop_other_threads : Bool) : Option (State StackID) :=
  match SetUpState e with
  | none => none
  | some (instruction_addr, stack_id, start_has_symbol, parent_frame_id) =>
    some
      { m_instruction_addr := instruction_addr
        m_stack_id := stack_id
        m_parent_frame_id := parent_frame_id
        m_start_has_symbol := start_has_symbol
        m_stop_other_threads := stop_other_threads
        m_step_over := step_over
        m_takes_iteration_count := true
        m_start_time := e.now
        m_start_address := 0
        m_end_address := 0
        m_done := false
        m_plan_complete := false
        trace := [] }

/-- The method `GetDescription` (lines 63-81). -/
def GetDescription (p : State StackID) (s : Stream) (level : DescriptionLevel) : Stream :=
  if level = DescriptionLevel.eDescriptionLevelBrief then
    if p.m_step_over then s.Printf "instruction step over"
    else s.Printf "instruction step into"
  else
    let s1 := s.Printf "Stepping one instruction past "
    let s2 := s1.Address p.m_instruction_addr sizeof_addr_t
    let s3 := if !p.m_start_has_symbol then s2.Printf " which has no symbol" else s2
    if p.m_step_over then s3.Printf " stepping over calls"
    else s3.Printf " stepping into calls"

/-- The method `ValidatePlan` (lines 83-87). -/
def ValidatePlan (_p : State StackID) : Bool := true

/-- The method `DoPlanExplainsStop` (lines 89-96). -/
def DoPlanExplainsStop (_p : State StackID) (e : Env StackID) : Bool :=
  match e.stop_info with
  | some reason =>
    decide (reason = StopReason.eStopReasonTrace) || decide (reason = StopReason.eStopReasonNone)
  | none => false

/-- The method `IsPlanStale` (lines 98-115).  Frame 0 is dereferenced without a test. -/
def IsPlanStale [LinearOrder StackID] (p : State StackID) (e : Env StackID) : Option Bool :=
  match e.frames[0]? with
  | none => none
  | some frame0 =>
    let cur_frame_id := frame0.stack_id
    if cur_frame_id = p.m_stack_id then
      some (decide (e.pc ≠ p.m_instruction_addr))
    else if cur_frame_id < p.m_stack_id then
      some (!p.m_step_over)
    else
      some true

/-- The method `GetModuleBaseAddr` (lines 117-127): the minimum of `UINT64_MAX` and the
load addresses of all sections of image `index`.  The image is dereferenced without a
test; the query is recorded in the trace. -/
def GetModuleBaseAddr (p : State StackID) (e : Env StackID) (index : Nat) :
    Option (Nat × State StackID) :=
  match e.images[index]? with
  | none => none
  | some module =>
    some (module.sections.foldl (fun addr sec => min addr sec.load_base_address) UINT64_MAX,
      { p with trace := p.trace ++ [Event.GetModuleAtIndex index] })

/-- The method `GetMainModuleAddr` (lines 129-137). -/
def GetMainModuleAddr (p : State StackID) (e : Env StackID) : Option (Bool × State StackID) :=
  if p.m_start_address ≠ 0 ∨ p.m_end_address ≠ 0 then
    some (true, p)
  else
    match GetModuleBaseAddr p e 0 with
    | none => none
    | some (a, p1) =>
      let p2 := { p1 with m_start_address := a }
      match GetModuleBaseAddr p2 e 1 with
      | none => none
      | some (b, p3) =>
        let p4 := { p3 with m_end_address := b }
        some (true,
          { p4 with trace := p4.trace ++
              [Event.printf_start_end p4.m_start_address p4.m_end_address] })

/-- The method `ShouldStop` (lines 139-150). -/
def ShouldStop (p : State StackID) (e : Env StackID) : Option (Bool × State StackID) :=
  let pc_addr := e.pc
  match GetMainModuleAddr p e with
  | none => none
  | some (_, p1) =>
    if p1.m_start_address ≤ pc_addr ∧ pc_addr ≤ p1.m_end_address then
      let p2 :=
        if !p1.m_done then
          { p1 with
              trace := p1.trace ++ [Event.printf_time_consumed (e.now - p1.m_start_time)]
              m_done := true }
        else p1
      some (true, SetPlanComplete p2)
    else
      some (false, p1)

/-- The method `StopOthers` (line 165). -/
def StopOthers (p : State StackID) : Bool := p.m_stop_other_threads

/-- The method `GetPlanRunState` (lines 167-169). -/
def GetPlanRunState (_p : State StackID) : StateType := StateType.eStateStepping

/-- The method `WillStop` (line 171). -/
def WillStop (_p : State StackID) : Bool := true

/-- The method `MischiefManaged` (lines 173-183). -/
def MischiefManaged (p : State StackID) : Bool × State StackID :=
  if IsPlanComplete p then
    (true, ThreadPlan.MischiefManaged p)
  else
    (false, p)

/-! ## Sequences of calls made by the host -/

/-- One call of the host on the plan. -/
inductive Call where
  | ValidatePlan
  | DoPlanExplainsStop
  | IsPlanStale
  | GetMainModuleAddr
  | ShouldStop
  | StopOthers
  | GetPlanRunState
  | WillStop
  | MischiefManaged
  | GetDescription (s : Stream) (level : DescriptionLevel)

/-- What a call returns (for `GetDescription`, the text of the stream afterwards). -/
inductive Ret where
  | bool (b : Bool)
  | run_state (st : StateType)
  | text (t : String)
deriving DecidableEq, Repr

/-- One call on the plan, in the environment of that moment. -/
def step [LinearOrder StackID] (p : State StackID) (c : Call) (e : Env StackID) :
    Option (Ret × State StackID) :=
  match c with
  | Call.ValidatePlan => some (Ret.bool (ValidatePlan p), p)
  | Call.DoPlanExplainsStop => some (Ret.bool (DoPlanExplainsStop p e), p)
  | Call.IsPlanStale =>
    match IsPlanStale p e with
    | none => none
    | some b => some (Ret.bool b, p)
  | Call.GetMainModuleAddr =>
    match GetMainModuleAddr p e with
    | none => none
    | some (b, p1) => some (Ret.bool b, p1)
  | Call.ShouldStop =>
    match ShouldStop p e with
    | none => none
    | some (b, p1) => some (Ret.bool b, p1)
  | Call.StopOthers => some (Ret.bool (StopOthers p), p)
  | Call.GetPlanRunState => some (Ret.run_state (GetPlanRunState p), p)
  | Call.WillStop => some (Ret.bool (WillStop p), p)
  | Call.MischiefManaged => some (Ret.bool (MischiefManaged p).1, (MischiefManaged p).2)
  | Call.GetDescription s level => some (Ret.text (GetDescription p s level).text, p)

/-- A sequence of calls, each in its own environment: the list of the values returned
and the final object. -/
def run [LinearOrder StackID] (p : State StackID) :
    List (Call × Env StackID) → Option (List Ret × State StackID)
  | [] => some ([], p)
  | (c, e) :: rest =>
    match step p c e with
    | none => none
    | some (r, p1) =>
      match run p1 rest with
      | none => none
      | some (rs, p2) => some (r :: rs, p2)

/-- Whether an event is a timing record ("goto user time consumed"). -/
def Event.isTimingRecord : Event → Bool
  | Event.printf_time_consumed _ => true
  | _ => false

/-- Whether an event is a query to the image list. -/
def Event.isModuleQuery : Event → Bool
  | Event.GetModuleAtIndex _ => true
  | _ => false

/-- The number of timing records in a trace. -/
def timingRecords (t : List Event) : Nat := t.countP Event.isTimingRecord

/-- The number of queries to the image list in a trace. -/
def moduleQueries (t : List Event) : Nat := t.countP Event.isModuleQuery

/-- The value `GetModuleBaseAddr` computes for an image. -/
def lowestLoadAddress (module : Module) : Nat :=
  module.sections.foldl (fun addr sec => min addr sec.load_base_address) UINT64_MAX

/-- Whether a call and the value it returned are a `ShouldStop` that returned `true`. -/
def stopClaimed : Call → Ret → Bool
  | Call.ShouldStop, Ret.bool true => true
  | _, _ => false

/-- Whether some `ShouldStop` call of the sequence returned `true`. -/
def anyStopClaimed : List (Call × Env StackID) → List Ret → Bool
  | c :: cs, r :: rs => stopClaimed c.1 r || anyStopClaimed cs rs
  | _, _ => false

/-- The three-row staleness table of the specification: same frame, stale iff the
program counter differs from the target instruction; younger frame, stale iff not
stepping over calls; older frame, always stale. -/
def IsStaleTable [LinearOrder StackID] (current origin : StackID) (pc target : Nat)
    (step_over_calls : Bool) : Bool :=
  match compare current origin with
  | Ordering.eq => decide (pc ≠ target)
  | Ordering.lt => !step_over_calls
  | Ordering.gt => true

/-! ## Concrete inputs used by the examples -/

/-- Two loaded images: the lowest section of image 0 is at 0x1000, the lowest section of
image 1 at 0x5000. -/
def scenarioImages : List Module :=
  [{ sections := [{ load_base_address := 0x1000 }, { load_base_address := 0x2000 }] },
   { sections := [{ load_base_address := 0x6000 }, { load_base_address := 0x5000 }] }]

/-- A stopped thread with frame identities 7 (frame 0) and 9 (its caller), the images of
`scenarioImages`, a single-step stop reason, at program counter `pc` and clock `now`. -/
def scenarioEnv (pc : Nat) (now : Int) : Env Nat :=
  { pc := pc
    frames := [{ stack_id := 7, symbol := some "main" }, { stack_id := 9, symbol := none }]
    images := scenarioImages
    stop_info := some StopReason.eStopReasonTrace
    now := now }

/-- The plan the constructor builds on `scenarioEnv 0x400 10`, stepping over calls. -/
def freshPlan : State Nat :=
  { m_instruction_addr := 0x400
    m_stack_id := 7
    m_parent_frame_id := some 9
    m_start_has_symbol := true
    m_stop_other_threads := false
    m_step_over := true
    m_takes_iteration_count := true
    m_start_time := 10
    m_start_address := 0
    m_end_address := 0
    m_done := false
    m_plan_complete := false
    trace := [] }

/-- The plan `freshPlan` after its main region has been resolved on `scenarioImages`. -/
def resolvedPlan : State Nat :=
  { freshPlan with
    m_start_address := 0x1000
    m_end_address := 0x5000
    trace := [Event.GetModuleAtIndex 0, Event.GetModuleAtIndex 1,
      Event.printf_start_end 0x1000 0x5000] }

/-- A thread whose frame 0 has identity `frame_id`, at program counter `pc`. -/
def frameEnv (frame_id pc : Nat) : Env Nat :=
  { pc := pc
    frames := [{ stack_id := frame_id, symbol := none }]
    images := []
    stop_info := none
    now := 0 }

/-- Two loaded images whose lowest sections are both at load address 0. -/
def zeroImages : List Module :=
  [{ sections := [{ load_base_address := 0 }, { load_base_address := 0x2000 }] },
   { sections := [{ load_base_address := 0 }] }]

/-- The thread of `scenarioEnv` in a target whose images are `zeroImages`. -/
def zeroEnv (pc : Nat) (now : Int) : Env Nat :=
  { scenarioEnv pc now with images := zeroImages }

/-- The plan `freshPlan` after one resolution on `zeroImages`: both bounds are 0. -/
def zeroResolvedPlan : State Nat :=
  { freshPlan with
    trace := [Event.GetModuleAtIndex 0, Event.GetModuleAtIndex 1,
      Event.printf_start_end 0 0] }

/-- The plan `zeroResolvedPlan` after a second resolution on `zeroImages`. -/
def zeroResolvedTwicePlan : State Nat :=
  { freshPlan with
    trace := [Event.GetModuleAtIndex 0, Event.GetModuleAtIndex 1,
      Event.printf_start_end 0 0, Event.GetModuleAtIndex 0, Event.GetModuleAtIndex 1,
      Event.printf_start_end 0 0] }

/-- A stream with no text yet that renders an address as `0x` and `2 * addr_size`
hexadecimal digits. -/
def hexStream : Stream :=
  { text := ""
    render_address := fun addr addr_size =>
      "0x" ++ String.mk (List.replicate (2 * addr_size - (Nat.toDigits 16 addr).length) '0'
        ++ Nat.toDigits 16 addr) }

/-- Two loaded images in inverted order: the lowest section of image 0 is at 0x5000, the
lowest section of image 1 at 0x1000. -/
def invertedImages : List Module :=
  [{ sections := [{ load_base_address := 0x5000 }, { load_base_address := 0x6000 }] },
   { sections := [{ load_base_address := 0x2000 }, { load_base_address := 0x1000 }] }]

/-- The thread of `scenarioEnv` in a target whose images are `invertedImages`. -/
def invertedEnv (pc : Nat) (now : Int) : Env Nat :=
  { scenarioEnv pc now with images := invertedImages }

/-- Two loaded images, the second of which has no section. -/
def noSectionImages : List Module :=
  [{ sections := [{ load_base_address := 0x1000 }] }, { sections := [] }]

/-- The thread of `scenarioEnv` in a target whose images are `noSectionImages`. -/
def noSectionEnv (pc : Nat) (now : Int) : Env Nat :=
  { scenarioEnv pc now with images := noSectionImages }

/-! ## The stop decision -/

/-- C1: once `GetMainModuleAddr` has resolved the main region of the plan to the bounds
`(p1.m_start_address, p1.m_end_address)` (which are the stored bounds themselves when one
of them is already non-zero), `ShouldStop` returns, and it returns `true` if and only if
`m_start_address ≤ pc ≤ m_end_address`, both ends inclusive; whenever it returns `true`
the plan is marked complete, otherwise it returns `false` and the plan is left as the
resolution left it. -/
theorem ShouldStop_true_iff_pc_in_bounds (p : State StackID) (e : Env StackID) (b : Bool)
    (p1 : State StackID) (h : GetMainModuleAddr p e = some (b, p1)) :
    ∃ r p2, ShouldStop p e = some (r, p2) ∧
      (r = true ↔ p1.m_start_address ≤ e.pc ∧ e.pc ≤ p1.m_end_address) ∧
      (r = true → IsPlanComplete p2 = true) ∧
      (r = false → p2 = p1) ∧
      p2.m_start_address = p1.m_start_address ∧ p2.m_end_address = p1.m_end_address ∧
      (p.m_start_address ≠ 0 ∨ p.m_end_address ≠ 0 → p1 = p) := by
  have hmemo : p.m_start_address ≠ 0 ∨ p.m_end_address ≠ 0 → p1 = p := by
    intro hnz
    unfold GetMainModuleAddr at h
    rw [if_pos hnz] at h
    simp only [Option.some.injEq, Prod.mk.injEq] at h
    exact h.2.symm
  by_cases hin : p1.m_start_address ≤ e.pc ∧ e.pc ≤ p1.m_end_address
  · have hs : ShouldStop p e = some (true, SetPlanComplete
        (if (!p1.m_done) = true then
          { p1 with
              trace := p1.trace ++ [Event.printf_time_consumed (e.now - p1.m_start_time)]
              m_done := true }
        else p1)) := by
      simp only [ShouldStop, h, if_pos hin]
    refine ⟨true, _, hs, ?_, ?_, ?_, ?_, ?_, hmemo⟩
    · simp [hin]
    · intro _
      rfl
    · intro hf
      cases hf
    · cases hd : p1.m_done <;> simp [SetPlanComplete]
    · cases hd : p1.m_done <;> simp [SetPlanComplete]
  · refine ⟨false, p1, ?_, ?_, ?_, ?_, rfl, rfl, hmemo⟩
    · simp only [ShouldStop, h, if_neg hin]
    · simp [hin]
    · intro hf
      cases hf
    · intro _
      rfl

/-- C1, at a concrete input: with bounds 0x1000 and 0x5000 resolved, `ShouldStop`
at program counter 0x1200 returns `true`. -/
theorem ShouldStop_true_iff_pc_in_bounds_witness :
    GetMainModuleAddr freshPlan (scenarioEnv 0x1200 13) = some (true, resolvedPlan) ∧
    ∃ r p2, ShouldStop freshPlan (scenarioEnv 0x1200 13) = some (r, p2) ∧
      (r = true ↔ resolvedPlan.m_start_address ≤ (scenarioEnv 0x1200 13).pc ∧
        (scenarioEnv 0x1200 13).pc ≤ resolvedPlan.m_end_address) ∧
      (r = true → IsPlanComplete p2 = true) ∧
      (r = false → p2 = resolvedPlan) ∧
      p2.m_start_address = resolvedPlan.m_start_address ∧
      p2.m_end_address = resolvedPlan.m_end_address ∧
      (freshPlan.m_start_address ≠ 0 ∨ freshPlan.m_end_address ≠ 0 →
        resolvedPlan = freshPlan) :=
  ⟨by decide,
    ShouldStop_true_iff_pc_in_bounds freshPlan (scenarioEnv 0x1200 13) true resolvedPlan
      (by decide)⟩

/-! ## Staleness -/

/-- C2: when frame 0 of the thread has the identity the plan captured, `IsPlanStale`
returns whether the program counter differs from the captured instruction address:
`false` when it equals the address and `true` when it differs, whatever `m_step_over`. -/
theorem IsPlanStale_same_frame [LinearOrder StackID] (p : State StackID) (e : Env StackID)
    (frame0 : StackFrame StackID) (h0 : e.frames[0]? = some frame0)
    (hsame : frame0.stack_id = p.m_stack_id) :
    IsPlanStale p e = some (decide (e.pc ≠ p.m_instruction_addr)) ∧
    (e.pc = p.m_instruction_addr → IsPlanStale p e = some false) ∧
    (e.pc ≠ p.m_instruction_addr → IsPlanStale p e = some true) := by
  have hmain : IsPlanStale p e = some (decide (e.pc ≠ p.m_instruction_addr)) := by
    simp only [IsPlanStale, h0, if_pos hsame]
  refine ⟨hmain, ?_, ?_⟩
  · intro hpc
    rw [hmain]
    simp [hpc]
  · intro hpc
    rw [hmain]
    simp [hpc]

/-- C2, at a concrete input: same frame 7, program counter moved from 0x400 to 0x404. -/
theorem IsPlanStale_same_frame_witness :
    IsPlanStale freshPlan (frameEnv 7 0x404) = some true ∧
    IsPlanStale freshPlan (frameEnv 7 0x400) = some false :=
  ⟨(IsPlanStale_same_frame freshPlan (frameEnv 7 0x404) { stack_id := 7, symbol := none }
      (by decide) (by decide)).2.2 (by decide),
   (IsPlanStale_same_frame freshPlan (frameEnv 7 0x400) { stack_id := 7, symbol := none }
      (by decide) (by decide)).2.1 (by decide)⟩

/-- C3: when frame 0 of the thread is younger than the frame the plan captured,
`IsPlanStale` returns the negation of `m_step_over`, at every program counter: `false`
for a plan that steps over calls and `true` for one that steps into them. -/
theorem IsPlanStale_younger_frame [LinearOrder StackID] (p : State StackID) (e : Env StackID)
    (frame0 : StackFrame StackID) (h0 : e.frames[0]? = some frame0)
    (hyounger : frame0.stack_id < p.m_stack_id) :
    IsPlanStale p e = some (!p.m_step_over) ∧
    (p.m_step_over = true → IsPlanStale p e = some false) ∧
    (p.m_step_over = false → IsPlanStale p e = some true) := by
  have hmain : IsPlanStale p e = some (!p.m_step_over) := by
    simp only [IsPlanStale, h0, if_neg (ne_of_lt hyounger), if_pos hyounger]
  refine ⟨hmain, ?_, ?_⟩
  · intro hso
    rw [hmain, hso]
    rfl
  · intro hso
    rw [hmain, hso]
    rfl

/-- C3, at a concrete input: frame 5 is younger than the captured frame 7. -/
theorem IsPlanStale_younger_frame_witness :
    IsPlanStale freshPlan (frameEnv 5 0x900) = some false ∧
    IsPlanStale { freshPlan with m_step_over := false } (frameEnv 5 0x900) = some true :=
  ⟨(IsPlanStale_younger_frame freshPlan (frameEnv 5 0x900) { stack_id := 5, symbol := none }
      (by decide) (by decide)).2.1 (by decide),
   (IsPlanStale_younger_frame { freshPlan with m_step_over := false } (frameEnv 5 0x900)
      { stack_id := 5, symbol := none } (by decide) (by decide)).2.2 (by decide)⟩

/-- C4: when frame 0 of the thread is older than the frame the plan captured (neither
equal to it nor younger), `IsPlanStale` returns `true` at every program counter and for
both values of `m_step_over`; and for every input with a frame 0 the value `IsPlanStale`
returns is the one the three-row table `IsStaleTable` gives. -/
theorem IsPlanStale_older_frame_and_table [LinearOrder StackID] (p : State StackID)
    (e : Env StackID) (frame0 : StackFrame StackID) (h0 : e.frames[0]? = some frame0) :
    (p.m_stack_id < frame0.stack_id → IsPlanStale p e = some true) ∧
    (frame0.stack_id ≠ p.m_stack_id ∧ ¬ frame0.stack_id < p.m_stack_id →
      IsPlanStale p e = some true) ∧
    IsPlanStale p e =
      some (IsStaleTable frame0.stack_id p.m_stack_id e.pc p.m_instruction_addr
        p.m_step_over) := by
  have helse : frame0.stack_id ≠ p.m_stack_id ∧ ¬ frame0.stack_id < p.m_stack_id →
      IsPlanStale p e = some true := by
    intro hne
    simp only [IsPlanStale, h0, if_neg hne.1, if_neg hne.2]
  refine ⟨fun hold => helse ⟨ne_of_gt hold, not_lt_of_gt hold⟩, helse, ?_⟩
  rcases lt_trichotomy frame0.stack_id p.m_stack_id with hlt | heq | hgt
  · simp only [IsPlanStale, h0, if_neg (ne_of_lt hlt), if_pos hlt, IsStaleTable,
      compare_lt_iff_lt.mpr hlt]
  · simp only [IsPlanStale, h0, if_pos heq, IsStaleTable, compare_eq_iff_eq.mpr heq]
  · rw [helse ⟨ne_of_gt hgt, not_lt_of_gt hgt⟩]
    simp only [IsStaleTable, compare_gt_iff_gt.mpr hgt]

/-- C4, at a concrete input: frame 9 is older than the captured frame 7. -/
theorem IsPlanStale_older_frame_and_table_witness :
    IsPlanStale freshPlan (frameEnv 9 0x400) = some true ∧
    IsPlanStale { freshPlan with m_step_over := false } (frameEnv 9 0x400) = some true :=
  ⟨(IsPlanStale_older_frame_and_table freshPlan (frameEnv 9 0x400)
      { stack_id := 9, symbol := none } (by decide)).1 (by decide),
   (IsPlanStale_older_frame_and_table { freshPlan with m_step_over := false }
      (frameEnv 9 0x400) { stack_id := 9, symbol := none } (by decide)).1 (by decide)⟩

/-! ## Effects of single calls -/

theorem timingRecords_append (t u : List Event) :
    timingRecords (t ++ u) = timingRecords t + timingRecords u := by
  simp [timingRecords, List.countP_append]

theorem moduleQueries_append (t u : List Event) :
    moduleQueries (t ++ u) = moduleQueries t + moduleQueries u := by
  simp [moduleQueries, List.countP_append]

/-- What `GetModuleBaseAddr` does when it returns: the image exists, the value is its
lowest load address, and the object only gains the query in its trace. -/
theorem GetModuleBaseAddr_some (p : State StackID) (e : Env StackID) (index a : Nat)
    (p1 : State StackID) (h : GetModuleBaseAddr p e index = some (a, p1)) :
    ∃ module, e.images[index]? = some module ∧ a = lowestLoadAddress module ∧
      p1 = { p with trace := p.trace ++ [Event.GetModuleAtIndex index] } := by
  unfold GetModuleBaseAddr at h
  cases hm : e.images[index]? with
  | none => simp [hm] at h
  | some module =>
    simp only [hm, Option.some.injEq, Prod.mk.injEq] at h
    exact ⟨module, rfl, h.1.symm, h.2.symm⟩

/-- A call of `GetMainModuleAddr` made when one stored bound is non-zero returns `true`
and leaves the object as it is, whatever the environment. -/
theorem GetMainModuleAddr_memo (p : State StackID) (e : Env StackID)
    (hnz : p.m_start_address ≠ 0 ∨ p.m_end_address ≠ 0) :
    GetMainModuleAddr p e = some (true, p) := by
  unfold GetMainModuleAddr
  rw [if_pos hnz]

/-- A call of `GetMainModuleAddr` made when both stored bounds are zero, on a target that
has images 0 and 1: two queries, the two lowest load addresses stored, one `printf`. -/
theorem GetMainModuleAddr_resolve (p : State StackID) (e : Env StackID) (m0 m1 : Module)
    (hz : p.m_start_address = 0 ∧ p.m_end_address = 0)
    (h0 : e.images[0]? = some m0) (h1 : e.images[1]? = some m1) :
    GetMainModuleAddr p e = some (true,
      { p with
        m_start_address := lowestLoadAddress m0
        m_end_address := lowestLoadAddress m1
        trace := p.trace ++ [Event.GetModuleAtIndex 0, Event.GetModuleAtIndex 1,
          Event.printf_start_end (lowestLoadAddress m0) (lowestLoadAddress m1)] }) := by
  have hnz : ¬ (p.m_start_address ≠ 0 ∨ p.m_end_address ≠ 0) := by
    simp [hz.1, hz.2]
  simp [GetMainModuleAddr, hnz, GetModuleBaseAddr, h0, h1, lowestLoadAddress]

/-- The two ways `GetMainModuleAddr` returns. -/
theorem GetMainModuleAddr_some (p : State StackID) (e : Env StackID) (b : Bool)
    (p1 : State StackID) (h : GetMainModuleAddr p e = some (b, p1)) :
    b = true ∧
    (((p.m_start_address ≠ 0 ∨ p.m_end_address ≠ 0) ∧ p1 = p) ∨
     ((p.m_start_address = 0 ∧ p.m_end_address = 0) ∧
      ∃ m0 m1, e.images[0]? = some m0 ∧ e.images[1]? = some m1 ∧
        p1 = { p with
          m_start_address := lowestLoadAddress m0
          m_end_address := lowestLoadAddress m1
          trace := p.trace ++ [Event.GetModuleAtIndex 0, Event.GetModuleAtIndex 1,
            Event.printf_start_end (lowestLoadAddress m0) (lowestLoadAddress m1)] })) := by
  by_cases hnz : p.m_start_address ≠ 0 ∨ p.m_end_address ≠ 0
  · rw [GetMainModuleAddr_memo p e hnz] at h
    simp only [Option.some.injEq, Prod.mk.injEq] at h
    exact ⟨h.1.symm, Or.inl ⟨hnz, h.2.symm⟩⟩
  · have hz : p.m_start_address = 0 ∧ p.m_end_address = 0 := by
      constructor
      · by_contra hc
        exact hnz (Or.inl hc)
      · by_contra hc
        exact hnz (Or.inr hc)
    cases h0 : e.images[0]? with
    | none => simp [GetMainModuleAddr, hnz, GetModuleBaseAddr, h0] at h
    | some m0 =>
      cases h1 : e.images[1]? with
      | none => simp [GetMainModuleAddr, hnz, GetModuleBaseAddr, h0, h1] at h
      | some m1 =>
        rw [GetMainModuleAddr_resolve p e m0 m1 hz h0 h1] at h
        simp only [Option.some.injEq, Prod.mk.injEq] at h
        exact ⟨h.1.symm, Or.inr ⟨hz, m0, m1, rfl, rfl, h.2.symm⟩⟩

/-- The resolution touches neither completion flag and prints no timing record. -/
theorem GetMainModuleAddr_flags (p : State StackID) (e : Env StackID) (b : Bool)
    (p1 : State StackID) (h : GetMainModuleAddr p e = some (b, p1)) :
    p1.m_done = p.m_done ∧ p1.m_plan_complete = p.m_plan_complete ∧
    timingRecords p1.trace = timingRecords p.trace := by
  rcases (GetMainModuleAddr_some p e b p1 h).2 with ⟨_, hp⟩ | ⟨_, m0, m1, _, _, hp⟩
  · subst hp
    exact ⟨rfl, rfl, rfl⟩
  · subst hp
    refine ⟨rfl, rfl, ?_⟩
    simp [timingRecords_append, timingRecords, Event.isTimingRecord]

/-- The effect of one `ShouldStop` on the two completion flags and on the number of
timing records: a call that returns `true` sets both flags and prints a timing record
exactly when `m_done` was not yet set; a call that returns `false` changes none. -/
theorem ShouldStop_flags (p : State StackID) (e : Env StackID) (r : Bool)
    (p2 : State StackID) (h : ShouldStop p e = some (r, p2)) :
    p2.m_done = (p.m_done || r) ∧ p2.m_plan_complete = (p.m_plan_complete || r) ∧
    timingRecords p2.trace =
      timingRecords p.trace + (if (r && !p.m_done) = true then 1 else 0) := by
  cases hg : GetMainModuleAddr p e with
  | none => simp [ShouldStop, hg] at h
  | some bp =>
    obtain ⟨b, p1⟩ := bp
    obtain ⟨hd, hc, ht⟩ := GetMainModuleAddr_flags p e b p1 hg
    by_cases hin : p1.m_start_address ≤ e.pc ∧ e.pc ≤ p1.m_end_address
    · simp only [ShouldStop, hg, if_pos hin, Option.some.injEq, Prod.mk.injEq] at h
      obtain ⟨hr, hp2⟩ := h
      subst hr
      subst hp2
      cases hdone : p1.m_done
      · rw [hdone] at hd
        have h1 : ∀ secs : Int, timingRecords [Event.printf_time_consumed secs] = 1 :=
          fun _ => rfl
        simp [SetPlanComplete, timingRecords_append, ← hd, ht, h1]
      · rw [hdone] at hd
        simp [SetPlanComplete, hdone, ← hd, ht]
    · simp only [ShouldStop, hg, if_neg hin, Option.some.injEq, Prod.mk.injEq] at h
      obtain ⟨hr, hp2⟩ := h
      subst hr
      subst hp2
      simp [hd, hc, ht]

/-- The value `MischiefManaged` returns is the completion flag, and the call changes no
field of the object. -/
theorem MischiefManaged_eq (p : State StackID) :
    (MischiefManaged p).1 = IsPlanComplete p ∧ (MischiefManaged p).2 = p := by
  cases hc : p.m_plan_complete
  · simp [MischiefManaged, IsPlanComplete, hc]
  · simp only [MischiefManaged, IsPlanComplete, hc, if_true, ThreadPlan.MischiefManaged]
    refine ⟨trivial, ?_⟩
    cases p
    simp_all

/-- On a target with at least two images `GetMainModuleAddr` returns. -/
theorem GetMainModuleAddr_total (p : State StackID) (e : Env StackID)
    (h : 2 ≤ e.images.length) : ∃ p1, GetMainModuleAddr p e = some (true, p1) := by
  by_cases hnz : p.m_start_address ≠ 0 ∨ p.m_end_address ≠ 0
  · exact ⟨p, GetMainModuleAddr_memo p e hnz⟩
  · have hz : p.m_start_address = 0 ∧ p.m_end_address = 0 := by
      constructor
      · by_contra hc
        exact hnz (Or.inl hc)
      · by_contra hc
        exact hnz (Or.inr hc)
    have h0 : e.images[0]? = some e.images[0] := List.getElem?_eq_getElem (by omega)
    have h1 : e.images[1]? = some e.images[1] := List.getElem?_eq_getElem (by omega)
    exact ⟨_, GetMainModuleAddr_resolve p e _ _ hz h0 h1⟩

/-- On a target with at least two images `ShouldStop` returns. -/
theorem ShouldStop_total (p : State StackID) (e : Env StackID)
    (h : 2 ≤ e.images.length) : ∃ r p2, ShouldStop p e = some (r, p2) := by
  obtain ⟨p1, hp1⟩ := GetMainModuleAddr_total p e h
  simp only [ShouldStop, hp1]
  split
  · exact ⟨_, _, rfl⟩
  · exact ⟨_, _, rfl⟩

/-! ## Effects of sequences of calls -/

/-- The effect of any one call on the two completion flags and on the number of timing
records: only a `ShouldStop` that returns `true` changes them. -/
theorem step_flags [LinearOrder StackID] (p : State StackID) (c : Call) (e : Env StackID)
    (r : Ret) (p1 : State StackID) (h : step p c e = some (r, p1)) :
    p1.m_done = (p.m_done || stopClaimed c r) ∧
    p1.m_plan_complete = (p.m_plan_complete || stopClaimed c r) ∧
    timingRecords p1.trace =
      timingRecords p.trace + (if (stopClaimed c r && !p.m_done) = true then 1 else 0) := by
  cases c with
  | ValidatePlan =>
    simp only [step, Option.some.injEq, Prod.mk.injEq] at h
    obtain ⟨_, hp⟩ := h
    subst hp
    simp [stopClaimed]
  | DoPlanExplainsStop =>
    simp only [step, Option.some.injEq, Prod.mk.injEq] at h
    obtain ⟨_, hp⟩ := h
    subst hp
    simp [stopClaimed]
  | IsPlanStale =>
    cases hs : IsPlanStale p e with
    | none => simp [step, hs] at h
    | some b =>
      simp only [step, hs, Option.some.injEq, Prod.mk.injEq] at h
      obtain ⟨_, hp⟩ := h
      subst hp
      simp [stopClaimed]
  | GetMainModuleAddr =>
    cases hs : GetMainModuleAddr p e with
    | none => simp [step, hs] at h
    | some bp =>
      obtain ⟨b, p2⟩ := bp
      simp only [step, hs, Option.some.injEq, Prod.mk.injEq] at h
      obtain ⟨_, hp⟩ := h
      subst hp
      obtain ⟨hd, hc, ht⟩ := GetMainModuleAddr_flags p e b p2 hs
      simp [stopClaimed, hd, hc, ht]
  | ShouldStop =>
    cases hs : ShouldStop p e with
    | none => simp [step, hs] at h
    | some bp =>
      obtain ⟨b, p2⟩ := bp
      simp only [step, hs, Option.some.injEq, Prod.mk.injEq] at h
      obtain ⟨hr, hp⟩ := h
      subst hp
      subst hr
      have hb : stopClaimed Call.ShouldStop (Ret.bool b) = b := by
        cases b <;> rfl
      rw [hb]
      exact ShouldStop_flags p e b p2 hs
  | StopOthers =>
    simp only [step, Option.some.injEq, Prod.mk.injEq] at h
    obtain ⟨_, hp⟩ := h
    subst hp
    simp [stopClaimed]
  | GetPlanRunState =>
    simp only [step, Option.some.injEq, Prod.mk.injEq] at h
    obtain ⟨_, hp⟩ := h
    subst hp
    simp [stopClaimed]
  | WillStop =>
    simp only [step, Option.some.injEq, Prod.mk.injEq] at h
    obtain ⟨_, hp⟩ := h
    subst hp
    simp [stopClaimed]
  | MischiefManaged =>
    simp only [step, Option.some.injEq, Prod.mk.injEq] at h
    obtain ⟨_, hp⟩ := h
    rw [(MischiefManaged_eq p).2] at hp
    subst hp
    simp [stopClaimed]
  | GetDescription s level =>
    simp only [step, Option.some.injEq, Prod.mk.injEq] at h
    obtain ⟨_, hp⟩ := h
    subst hp
    simp [stopClaimed]

/-- The effect of a sequence of calls on the two completion flags and on the number of
timing records: both flags become (and stay) set as soon as some `ShouldStop` of the
sequence returns `true`, and a timing record is printed then if `m_done` was not set. -/
theorem run_flags [LinearOrder StackID] (cs : List (Call × Env StackID)) :
    ∀ (p : State StackID) (rs : List Ret) (p1 : State StackID),
      run p cs = some (rs, p1) →
      p1.m_done = (p.m_done || anyStopClaimed cs rs) ∧
      p1.m_plan_complete = (p.m_plan_complete || anyStopClaimed cs rs) ∧
      timingRecords p1.trace =
        timingRecords p.trace +
          (if (anyStopClaimed cs rs && !p.m_done) = true then 1 else 0) ∧
      rs.length = cs.length := by
  induction cs with
  | nil =>
    intro p rs p1 h
    simp only [run, Option.some.injEq, Prod.mk.injEq] at h
    obtain ⟨hr, hp⟩ := h
    subst hr
    subst hp
    simp [anyStopClaimed]
  | cons ce rest ih =>
    intro p rs p1 h
    obtain ⟨c, e⟩ := ce
    cases hs : step p c e with
    | none => simp [run, hs] at h
    | some rp =>
      obtain ⟨r, p2⟩ := rp
      cases hrest : run p2 rest with
      | none => simp [run, hs, hrest] at h
      | some rsp =>
        obtain ⟨rs2, p3⟩ := rsp
        simp only [run, hs, hrest, Option.some.injEq, Prod.mk.injEq] at h
        obtain ⟨hr, hp⟩ := h
        subst hr
        subst hp
        obtain ⟨hd, hc, ht, hl⟩ := ih p2 rs2 p3 hrest
        obtain ⟨hd1, hc1, ht1⟩ := step_flags p c e r p2 hs
        refine ⟨?_, ?_, ?_, ?_⟩
        · rw [hd, hd1]
          simp [anyStopClaimed, Bool.or_assoc]
        · rw [hc, hc1]
          simp [anyStopClaimed, Bool.or_assoc]
        · rw [ht, ht1, hd1]
          simp only [anyStopClaimed]
          have key : ∀ (x y d : Bool) (n : Nat),
              (n + (if (x && !d) = true then 1 else 0)) +
                (if (y && !(d || x)) = true then 1 else 0) =
              n + (if ((x || y) && !d) = true then 1 else 0) := by
            intro x y d n
            cases x <;> cases y <;> cases d <;> simp
          exact key _ _ _ _
        · simp [hl]

/-- The value a returning `ShouldStop` gives is the bound test on the bounds it leaves
stored. -/
theorem ShouldStop_result (p : State StackID) (e : Env StackID) (r : Bool)
    (p2 : State StackID) (h : ShouldStop p e = some (r, p2)) :
    r = true ↔ p2.m_start_address ≤ e.pc ∧ e.pc ≤ p2.m_end_address := by
  cases hg : GetMainModuleAddr p e with
  | none => simp [ShouldStop, hg] at h
  | some bp =>
    obtain ⟨b, p1⟩ := bp
    by_cases hin : p1.m_start_address ≤ e.pc ∧ e.pc ≤ p1.m_end_address
    · simp only [ShouldStop, hg, if_pos hin, Option.some.injEq, Prod.mk.injEq] at h
      obtain ⟨hr, hp2⟩ := h
      subst hr
      subst hp2
      cases hd : p1.m_done <;> simp [SetPlanComplete, hin]
    · simp only [ShouldStop, hg, if_neg hin, Option.some.injEq, Prod.mk.injEq] at h
      obtain ⟨hr, hp2⟩ := h
      subst hr
      subst hp2
      simp [hin]

/-- With a non-zero stored bound, `ShouldStop` returns in every environment, asks the
image list nothing and leaves the stored bounds as they are. -/
theorem ShouldStop_memo (p : State StackID) (e : Env StackID)
    (hnz : p.m_start_address ≠ 0 ∨ p.m_end_address ≠ 0) :
    ∃ r p2, ShouldStop p e = some (r, p2) ∧
      p2.m_start_address = p.m_start_address ∧ p2.m_end_address = p.m_end_address ∧
      moduleQueries p2.trace = moduleQueries p.trace := by
  have hg := GetMainModuleAddr_memo p e hnz
  by_cases hin : p.m_start_address ≤ e.pc ∧ e.pc ≤ p.m_end_address
  · have hs : ShouldStop p e = some (true, SetPlanComplete
        (if (!p.m_done) = true then
          { p with
              trace := p.trace ++ [Event.printf_time_consumed (e.now - p.m_start_time)]
              m_done := true }
        else p)) := by
      simp only [ShouldStop, hg, if_pos hin]
    refine ⟨true, _, hs, ?_, ?_, ?_⟩
    · cases hd : p.m_done <;> simp [SetPlanComplete]
    · cases hd : p.m_done <;> simp [SetPlanComplete]
    · have h1 : ∀ secs : Int, moduleQueries [Event.printf_time_consumed secs] = 0 :=
        fun _ => rfl
      cases hd : p.m_done <;> simp [SetPlanComplete, moduleQueries_append, h1]
  · have hs : ShouldStop p e = some (false, p) := by
      simp only [ShouldStop, hg, if_neg hin]
    exact ⟨false, p, hs, rfl, rfl, rfl⟩

/-- What the constructor leaves in the object. -/
theorem new_some (e0 : Env StackID) (step_over stop_other_threads : Bool)
    (p0 : State StackID) (h : new e0 step_over stop_other_threads = some p0) :
    p0.m_done = false ∧ p0.m_plan_complete = false ∧
    p0.m_start_address = 0 ∧ p0.m_end_address = 0 ∧ p0.trace = [] ∧
    p0.m_step_over = step_over ∧ p0.m_stop_other_threads = stop_other_threads ∧
    p0.m_instruction_addr = e0.pc ∧ p0.m_start_time = e0.now ∧
    ∃ frame0, e0.frames[0]? = some frame0 ∧ p0.m_stack_id = frame0.stack_id ∧
      p0.m_start_has_symbol = frame0.symbol.isSome := by
  unfold new SetUpState at h
  cases hf : e0.frames[0]? with
  | none => simp [hf] at h
  | some frame0 =>
    simp only [hf, Option.some.injEq] at h
    subst h
    exact ⟨rfl, rfl, rfl, rfl, rfl, rfl, rfl, rfl, rfl, frame0, rfl, rfl, rfl⟩

/-! ## The lowest load address of an image -/

theorem foldl_min_le_init (l : List Section) :
    ∀ init : Nat,
      l.foldl (fun addr sec => min addr sec.load_base_address) init ≤ init := by
  induction l with
  | nil =>
    intro init
    exact le_refl _
  | cons s rest ih =>
    intro init
    simp only [List.foldl_cons]
    exact le_trans (ih _) (min_le_left _ _)

theorem foldl_min_le_mem (l : List Section) :
    ∀ init : Nat, ∀ sec ∈ l,
      l.foldl (fun addr sec => min addr sec.load_base_address) init
        ≤ sec.load_base_address := by
  induction l with
  | nil =>
    intro init sec hsec
    cases hsec
  | cons s rest ih =>
    intro init sec hsec
    simp only [List.foldl_cons]
    rcases List.mem_cons.mp hsec with heq | hmem
    · subst heq
      exact le_trans (foldl_min_le_init rest _) (min_le_right _ _)
    · exact ih _ sec hmem

theorem foldl_min_eq (l : List Section) :
    ∀ init : Nat,
      l.foldl (fun addr sec => min addr sec.load_base_address) init = init ∨
      ∃ sec ∈ l,
        l.foldl (fun addr sec => min addr sec.load_base_address) init
          = sec.load_base_address := by
  induction l with
  | nil =>
    intro init
    exact Or.inl rfl
  | cons s rest ih =>
    intro init
    simp only [List.foldl_cons]
    rcases ih (min init s.load_base_address) with h | ⟨sec, hsec, h⟩
    · rcases min_choice init s.load_base_address with hm | hm
      · left
        rw [h, hm]
      · right
        exact ⟨s, List.mem_cons_self s rest, by rw [h, hm]⟩
    · right
      exact ⟨sec, List.mem_cons_of_mem s hsec, h⟩

/-- For an image with at least one section, all of whose load addresses are 64-bit values,
the value `GetModuleBaseAddr` computes is the minimum of the load addresses of its
sections: below all of them and equal to one of them. -/
theorem lowestLoadAddress_is_min (module : Module) (hne : module.sections ≠ [])
    (hwf : ∀ sec ∈ module.sections, sec.load_base_address ≤ UINT64_MAX) :
    (∀ sec ∈ module.sections, lowestLoadAddress module ≤ sec.load_base_address) ∧
    ∃ sec ∈ module.sections, lowestLoadAddress module = sec.load_base_address := by
  refine ⟨foldl_min_le_mem module.sections UINT64_MAX, ?_⟩
  rcases foldl_min_eq module.sections UINT64_MAX with h | h
  · obtain ⟨s, hs⟩ := List.exists_mem_of_ne_nil module.sections hne
    refine ⟨s, hs, ?_⟩
    have h1 := foldl_min_le_mem module.sections UINT64_MAX s hs
    have h2 := hwf s hs
    unfold lowestLoadAddress
    omega
  · exact h

/-- With a frame 0 and two images every call returns. -/
theorem step_total [LinearOrder StackID] (p : State StackID) (c : Call) (e : Env StackID)
    (himg : 2 ≤ e.images.length) (hfr : e.frames ≠ []) :
    ∃ r p1, step p c e = some (r, p1) := by
  cases c with
  | ValidatePlan => exact ⟨_, _, rfl⟩
  | DoPlanExplainsStop => exact ⟨_, _, rfl⟩
  | IsPlanStale =>
    cases hf : e.frames with
    | nil => exact absurd hf hfr
    | cons frame0 rest =>
      simp only [step, IsPlanStale, hf, List.getElem?_cons_zero]
      split_ifs <;> exact ⟨_, _, rfl⟩
  | GetMainModuleAddr =>
    obtain ⟨p1, h⟩ := GetMainModuleAddr_total p e himg
    exact ⟨Ret.bool true, p1, by simp only [step, h]⟩
  | ShouldStop =>
    obtain ⟨r, p1, h⟩ := ShouldStop_total p e himg
    exact ⟨Ret.bool r, p1, by simp only [step, h]⟩
  | StopOthers => exact ⟨_, _, rfl⟩
  | GetPlanRunState => exact ⟨_, _, rfl⟩
  | WillStop => exact ⟨_, _, rfl⟩
  | MischiefManaged => exact ⟨_, _, rfl⟩
  | GetDescription s level => exact ⟨_, _, rfl⟩

/-- A sequence of calls returns when every environment has a frame 0 and two images. -/
theorem run_total [LinearOrder StackID] (cs : List (Call × Env StackID)) :
    ∀ (p : State StackID), (∀ c ∈ cs, 2 ≤ c.2.images.length ∧ c.2.frames ≠ []) →
      ∃ rs p1, run p cs = some (rs, p1) := by
  induction cs with
  | nil =>
    intro p _
    exact ⟨[], p, rfl⟩
  | cons ce rest ih =>
    intro p h
    obtain ⟨c, e⟩ := ce
    have hce := h (c, e) (List.mem_cons_self _ rest)
    obtain ⟨r, p2, hs⟩ := step_total p c e hce.1 hce.2
    obtain ⟨rs, p3, hrest⟩ := ih p2 (fun c1 hc1 => h c1 (List.mem_cons_of_mem _ hc1))
    exact ⟨r :: rs, p3, by simp only [run, hs, hrest]⟩

/-! ## The one-shot timing record -/

/-- C6, as stated, fails: on the plan fresh from its constructor, with images 0 and 1 whose
lowest sections are both at load address 0, the first `GetMainModuleAddr` stores the
bounds (0, 0) after two queries to the image list, and the second call queries the image
list twice again; and if the target then reports other images, the second call changes
the stored bounds from (0, 0) to (0x1000, 0x5000). -/
theorem GetMainModuleAddr_zero_bounds_resolved_again :
    new (scenarioEnv 0x400 10) true false = some freshPlan ∧
    GetMainModuleAddr freshPlan (zeroEnv 0x400 11) = some (true, zeroResolvedPlan) ∧
    GetMainModuleAddr zeroResolvedPlan (zeroEnv 0x400 12)
      = some (true, zeroResolvedTwicePlan) ∧
    moduleQueries zeroResolvedPlan.trace = 2 ∧
    moduleQueries zeroResolvedTwicePlan.trace = 4 ∧
    (zeroResolvedPlan.m_start_address, zeroResolvedPlan.m_end_address) = (0, 0) ∧
    (GetMainModuleAddr zeroResolvedPlan (scenarioEnv 0x400 12)).map
      (fun x => (x.1, x.2.m_start_address, x.2.m_end_address, moduleQueries x.2.trace))
      = some (true, 0x1000, 0x5000, 4) := by
  refine ⟨by decide, by decide, by decide, by decide, by decide, by decide, by decide⟩

/-- C6, amended: once a call has left at least one stored bound non-zero, every later
call of `GetMainModuleAddr`, made directly or through `ShouldStop`, in any environment,
returns (the direct calls return `true`), makes no query to the image list and leaves
both stored bounds as they are. -/
theorem GetMainModuleAddr_no_query_once_nonzero [LinearOrder StackID]
    (cs : List (Call × Env StackID))
    (hcs : ∀ c ∈ cs, c.1 = Call.GetMainModuleAddr ∨ c.1 = Call.ShouldStop)
    (p : State StackID) (hnz : p.m_start_address ≠ 0 ∨ p.m_end_address ≠ 0) :
    ∃ rs p1, run p cs = some (rs, p1) ∧
      p1.m_start_address = p.m_start_address ∧ p1.m_end_address = p.m_end_address ∧
      moduleQueries p1.trace = moduleQueries p.trace ∧
      rs.length = cs.length ∧
      (∀ cr ∈ cs.zip rs, cr.1.1 = Call.GetMainModuleAddr → cr.2 = Ret.bool true) := by
  induction cs generalizing p with
  | nil => exact ⟨[], p, rfl, rfl, rfl, rfl, rfl, by simp⟩
  | cons ce rest ih =>
    obtain ⟨c, e⟩ := ce
    have hrest : ∀ c1 ∈ rest, c1.1 = Call.GetMainModuleAddr ∨ c1.1 = Call.ShouldStop :=
      fun c1 hc1 => hcs c1 (List.mem_cons_of_mem _ hc1)
    rcases hcs (c, e) (List.mem_cons_self _ rest) with hc | hc
    · simp only at hc
      subst hc
      obtain ⟨rs, p1, hrun, hlo, hhi, hq, hlen, hret⟩ := ih hrest p hnz
      refine ⟨Ret.bool true :: rs, p1, ?_, hlo, hhi, hq, by simp [hlen], ?_⟩
      · simp only [run, step, GetMainModuleAddr_memo p e hnz, hrun]
      · intro cr hcr hdirect
        simp only [List.zip_cons_cons, List.mem_cons] at hcr
        rcases hcr with heq | hmem
        · rw [heq]
        · exact hret cr hmem hdirect
    · simp only at hc
      subst hc
      obtain ⟨r, p2, hs, hlo2, hhi2, hq2⟩ := ShouldStop_memo p e hnz
      have hnz2 : p2.m_start_address ≠ 0 ∨ p2.m_end_address ≠ 0 := by
        rw [hlo2, hhi2]
        exact hnz
      obtain ⟨rs, p1, hrun, hlo, hhi, hq, hlen, hret⟩ := ih hrest p2 hnz2
      refine ⟨Ret.bool r :: rs, p1, ?_, hlo.trans hlo2, hhi.trans hhi2, hq.trans hq2,
        by simp [hlen], ?_⟩
      · simp only [run, step, hs, hrun]
      · intro cr hcr hdirect
        simp only [List.zip_cons_cons, List.mem_cons] at hcr
        rcases hcr with heq | hmem
        · rw [heq] at hdirect
          cases hdirect
        · exact hret cr hmem hdirect

/-- C6 amended, at a concrete input: with the bounds 0x1000 and 0x5000 stored, three
further calls on a target that now reports other images return without a query. -/
theorem GetMainModuleAddr_no_query_once_nonzero_witness :
    ∃ rs p1, run resolvedPlan
        [(Call.GetMainModuleAddr, zeroEnv 0x500 11), (Call.ShouldStop, zeroEnv 0x1200 12),
         (Call.GetMainModuleAddr, frameEnv 7 0x1204)] = some (rs, p1) ∧
      p1.m_start_address = resolvedPlan.m_start_address ∧
      p1.m_end_address = resolvedPlan.m_end_address ∧
      moduleQueries p1.trace = moduleQueries resolvedPlan.trace ∧
      rs.length = [(Call.GetMainModuleAddr, zeroEnv 0x500 11),
        (Call.ShouldStop, zeroEnv 0x1200 12),
        (Call.GetMainModuleAddr, frameEnv 7 0x1204)].length ∧
      (∀ cr ∈ [(Call.GetMainModuleAddr, zeroEnv 0x500 11),
          (Call.ShouldStop, zeroEnv 0x1200 12),
          (Call.GetMainModuleAddr, frameEnv 7 0x1204)].zip rs,
        cr.1.1 = Call.GetMainModuleAddr → cr.2 = Ret.bool true) :=
  GetMainModuleAddr_no_query_once_nonzero
    [(Call.GetMainModuleAddr, zeroEnv 0x500 11), (Call.ShouldStop, zeroEnv 0x1200 12),
     (Call.GetMainModuleAddr, frameEnv 7 0x1204)]
    (by
      intro c hc
      simp only [List.mem_cons, List.mem_singleton, List.not_mem_nil, or_false] at hc
      rcases hc with h | h | h <;> rw [h] <;> simp)
    resolvedPlan (Or.inl (by decide))

/-- C7: on a plan fresh from its constructor (both bounds zero), on a target whose images
0 and 1 both have at least one section (load addresses being 64-bit values),
`GetMainModuleAddr` returns `true` and stores as `m_start_address` the minimum of the
load addresses of the sections of image 0 and as `m_end_address` that of image 1: each
stored bound is below every section address of its image and equal to one of them. -/
theorem GetMainModuleAddr_fresh_stores_minima (e0 : Env StackID)
    (step_over stop_other_threads : Bool) (p0 : State StackID)
    (hnew : new e0 step_over stop_other_threads = some p0)
    (e : Env StackID) (m0 m1 : Module)
    (h0 : e.images[0]? = some m0) (h1 : e.images[1]? = some m1)
    (hne0 : m0.sections ≠ []) (hne1 : m1.sections ≠ [])
    (hwf0 : ∀ sec ∈ m0.sections, sec.load_base_address ≤ UINT64_MAX)
    (hwf1 : ∀ sec ∈ m1.sections, sec.load_base_address ≤ UINT64_MAX) :
    p0.m_start_address = 0 ∧ p0.m_end_address = 0 ∧
    ∃ p1, GetMainModuleAddr p0 e = some (true, p1) ∧
      (∀ sec ∈ m0.sections, p1.m_start_address ≤ sec.load_base_address) ∧
      (∃ sec ∈ m0.sections, p1.m_start_address = sec.load_base_address) ∧
      (∀ sec ∈ m1.sections, p1.m_end_address ≤ sec.load_base_address) ∧
      (∃ sec ∈ m1.sections, p1.m_end_address = sec.load_base_address) := by
  obtain ⟨_, _, hlo, hhi, _⟩ := new_some e0 step_over stop_other_threads p0 hnew
  obtain ⟨hle0, hmem0⟩ := lowestLoadAddress_is_min m0 hne0 hwf0
  obtain ⟨hle1, hmem1⟩ := lowestLoadAddress_is_min m1 hne1 hwf1
  exact ⟨hlo, hhi, _, GetMainModuleAddr_resolve p0 e m0 m1 ⟨hlo, hhi⟩ h0 h1,
    hle0, hmem0, hle1, hmem1⟩

/-- C7, at a concrete input: the images of `scenarioImages` give the bounds 0x1000 and
0x5000. -/
theorem GetMainModuleAddr_fresh_stores_minima_witness :
    GetMainModuleAddr freshPlan (scenarioEnv 0x500 11) = some (true, resolvedPlan) ∧
    (freshPlan.m_start_address = 0 ∧ freshPlan.m_end_address = 0 ∧
    ∃ p1, GetMainModuleAddr freshPlan (scenarioEnv 0x500 11) = some (true, p1) ∧
      (∀ sec ∈ [({ load_base_address := 0x1000 } : Section), { load_base_address := 0x2000 }],
        p1.m_start_address ≤ sec.load_base_address) ∧
      (∃ sec ∈ [({ load_base_address := 0x1000 } : Section), { load_base_address := 0x2000 }],
        p1.m_start_address = sec.load_base_address) ∧
      (∀ sec ∈ [({ load_base_address := 0x6000 } : Section), { load_base_address := 0x5000 }],
        p1.m_end_address ≤ sec.load_base_address) ∧
      (∃ sec ∈ [({ load_base_address := 0x6000 } : Section), { load_base_address := 0x5000 }],
        p1.m_end_address = sec.load_base_address)) :=
  ⟨by decide,
    GetMainModuleAddr_fresh_stores_minima (scenarioEnv 0x400 10) true false freshPlan
      (by decide) (scenarioEnv 0x500 11)
      { sections := [{ load_base_address := 0x1000 }, { load_base_address := 0x2000 }] }
      { sections := [{ load_base_address := 0x6000 }, { load_base_address := 0x5000 }] }
      (by decide) (by decide) (by decide) (by decide) (by decide) (by decide)⟩

/-! ## Retiring the plan -/

/-- C8: `MischiefManaged` returns `true` if and only if the plan is complete, and leaves
the object as it is; on a plan fresh from its constructor, after any sequence of calls of
the host (in particular any sequence of `ShouldStop` and `MischiefManaged` calls, in any
environments), the next `MischiefManaged` returns `true` exactly when some `ShouldStop`
call of the sequence has returned `true`: `false` as long as none has, `true` at every
poll afterwards.  The sequence returns whenever every environment has a frame 0 and
images 0 and 1. -/
theorem MischiefManaged_true_iff_stop_claimed [LinearOrder StackID] (e0 : Env StackID)
    (step_over stop_other_threads : Bool) (p0 : State StackID)
    (hnew : new e0 step_over stop_other_threads = some p0)
    (cs : List (Call × Env StackID)) :
    (∀ rs p1, run p0 cs = some (rs, p1) →
      (MischiefManaged p1).1 = anyStopClaimed cs rs ∧
      (MischiefManaged p1).1 = IsPlanComplete p1 ∧
      (MischiefManaged p1).2 = p1) ∧
    ((∀ c ∈ cs, 2 ≤ c.2.images.length ∧ c.2.frames ≠ []) →
      ∃ rs p1, run p0 cs = some (rs, p1)) := by
  obtain ⟨_, hc0, _⟩ := new_some e0 step_over stop_other_threads p0 hnew
  refine ⟨?_, run_total cs p0⟩
  intro rs p1 hrun
  obtain ⟨_, hc, _, _⟩ := run_flags cs p0 rs p1 hrun
  obtain ⟨hm1, hm2⟩ := MischiefManaged_eq p1
  refine ⟨?_, hm1, hm2⟩
  rw [hm1, IsPlanComplete, hc, hc0]
  simp

/-- C8, at a concrete input: polls before and after the program counter reaches the main
region; the two polls before return `false`, the two polls after return `true`. -/
theorem MischiefManaged_true_iff_stop_claimed_witness :
    new (scenarioEnv 0x400 10) true false = some freshPlan ∧
    (run freshPlan
      [(Call.MischiefManaged, scenarioEnv 0x400 10), (Call.ShouldStop, scenarioEnv 0x500 11),
       (Call.MischiefManaged, scenarioEnv 0x500 11), (Call.ShouldStop, scenarioEnv 0x1200 12),
       (Call.MischiefManaged, scenarioEnv 0x1200 12),
       (Call.MischiefManaged, scenarioEnv 0x1200 12)]).map (fun x => x.1)
      = some [Ret.bool false, Ret.bool false, Ret.bool false, Ret.bool true, Ret.bool true,
          Ret.bool true] ∧
    ∃ rs p1, run freshPlan
      [(Call.MischiefManaged, scenarioEnv 0x400 10), (Call.ShouldStop, scenarioEnv 0x500 11),
       (Call.MischiefManaged, scenarioEnv 0x500 11), (Call.ShouldStop, scenarioEnv 0x1200 12),
       (Call.MischiefManaged, scenarioEnv 0x1200 12),
       (Call.MischiefManaged, scenarioEnv 0x1200 12)] = some (rs, p1) :=
  ⟨by decide, by decide,
    (MischiefManaged_true_iff_stop_claimed (scenarioEnv 0x400 10) true false freshPlan
      (by decide)
      [(Call.MischiefManaged, scenarioEnv 0x400 10), (Call.ShouldStop, scenarioEnv 0x500 11),
       (Call.MischiefManaged, scenarioEnv 0x500 11), (Call.ShouldStop, scenarioEnv 0x1200 12),
       (Call.MischiefManaged, scenarioEnv 0x1200 12),
       (Call.MischiefManaged, scenarioEnv 0x1200 12)]).2
      (by decide)⟩

/-! ## Claiming a stop -/

/-- C9: `DoPlanExplainsStop` returns `true` if and only if there is a stop info whose
reason is `eStopReasonTrace` or `eStopReasonNone`; it returns `false` for a stop info
with any other reason and when there is no stop info. -/
theorem DoPlanExplainsStop_true_iff_trace_or_none (p : State StackID) (e : Env StackID) :
    (DoPlanExplainsStop p e = true ↔
      e.stop_info = some StopReason.eStopReasonTrace ∨
      e.stop_info = some StopReason.eStopReasonNone) ∧
    (∀ reason, e.stop_info = some reason →
      reason ≠ StopReason.eStopReasonTrace → reason ≠ StopReason.eStopReasonNone →
      DoPlanExplainsStop p e = false) ∧
    (e.stop_info = none → DoPlanExplainsStop p e = false) := by
  refine ⟨?_, ?_, ?_⟩
  · cases hs : e.stop_info with
    | none => simp [DoPlanExplainsStop, hs]
    | some reason => simp [DoPlanExplainsStop, hs]
  · intro reason hs ht hn
    simp [DoPlanExplainsStop, hs, ht, hn]
  · intro hs
    simp [DoPlanExplainsStop, hs]

/-! ## Describing the plan -/

/-- C10, as stated, fails: the detailed description of the plan `freshPlan` (which has a
symbol and steps over calls) on an empty stream begins with a capital letter,
"Stepping one instruction past ", so it is not the text the claim gives. -/
theorem GetDescription_detailed_not_lowercase :
    (GetDescription freshPlan hexStream (DescriptionLevel.detailed 1)).text
      = "Stepping one instruction past 0x0000000000000400 stepping over calls" ∧
    (GetDescription freshPlan hexStream (DescriptionLevel.detailed 1)).text
      ≠ "stepping one instruction past "
          ++ hexStream.render_address freshPlan.m_instruction_addr sizeof_addr_t
          ++ (if freshPlan.m_start_has_symbol = false then " which has no symbol" else "")
          ++ (if freshPlan.m_step_over = true then " stepping over calls"
              else " stepping into calls") := by
  refine ⟨by decide, by decide⟩

/-- C10, amended: at every level other than the brief one, `GetDescription` appends to
the stream exactly the text "Stepping one instruction past " (with a capital S), the
rendering of `m_instruction_addr` as an address of `sizeof(addr_t)` bytes,
" which has no symbol" precisely when `m_start_has_symbol` is false, and then
" stepping over calls" when `m_step_over` is true, " stepping into calls" when false. -/
theorem GetDescription_detailed_text (p : State StackID) (s : Stream) (code : Nat) :
    (GetDescription p s (DescriptionLevel.detailed code)).text
      = s.text ++ "Stepping one instruction past "
          ++ s.render_address p.m_instruction_addr sizeof_addr_t
          ++ (if p.m_start_has_symbol = false then " which has no symbol" else "")
          ++ (if p.m_step_over = true then " stepping over calls"
              else " stepping into calls") := by
  cases hsym : p.m_start_has_symbol <;> cases hso : p.m_step_over <;>
    simp [GetDescription, Stream.Printf, Stream.Address, hsym, hso, String.append_assoc]

/-- C11: at the brief level `GetDescription` appends to the stream exactly the text
"instruction step over" when `m_step_over` is true and exactly "instruction step into"
when it is false; no other field of the plan is read. -/
theorem GetDescription_brief_text (p : State StackID) (s : Stream) :
    (GetDescription p s DescriptionLevel.eDescriptionLevelBrief).text
      = s.text ++ (if p.m_step_over = true then "instruction step over"
          else "instruction step into") ∧
    (p.m_step_over = true →
      (GetDescription p s DescriptionLevel.eDescriptionLevelBrief).text
        = s.text ++ "instruction step over") ∧
    (p.m_step_over = false →
      (GetDescription p s DescriptionLevel.eDescriptionLevelBrief).text
        = s.text ++ "instruction step into") ∧
    (∀ q : State StackID, q.m_step_over = p.m_step_over →
      (GetDescription q s DescriptionLevel.eDescriptionLevelBrief).text
        = (GetDescription p s DescriptionLevel.eDescriptionLevelBrief).text) := by
  have hmain : ∀ q : State StackID,
      (GetDescription q s DescriptionLevel.eDescriptionLevelBrief).text
        = s.text ++ (if q.m_step_over = true then "instruction step over"
            else "instruction step into") := by
    intro q
    cases hso : q.m_step_over <;> simp [GetDescription, Stream.Printf, hso]
  refine ⟨hmain p, ?_, ?_, ?_⟩
  · intro hso
    rw [hmain p, hso]
    rfl
  · intro hso
    rw [hmain p, hso]
    rfl
  · intro q hq
    rw [hmain p, hmain q, hq]

/-- C11, at a concrete input: the brief description of `freshPlan`, which steps over
calls, and of the same plan stepping into calls, on an empty stream. -/
theorem GetDescription_brief_text_witness :
    (GetDescription freshPlan hexStream DescriptionLevel.eDescriptionLevelBrief).text
      = "instruction step over" ∧
    (GetDescription { freshPlan with m_step_over := false } hexStream
        DescriptionLevel.eDescriptionLevelBrief).text
      = "instruction step into" :=
  ⟨((GetDescription_brief_text freshPlan hexStream).2.1 (by decide)).trans (by decide),
   ((GetDescription_brief_text { freshPlan with m_step_over := false } hexStream).2.2.1
      (by decide)).trans (by decide)⟩

/-! ## Memoization hit -/

/-- C14: in every state in which at least one of the two stored bounds is non-zero,
`GetMainModuleAddr` returns `true` and leaves the whole object (both bounds, every other
field, the trace) as it is, whatever the image list of the target reports. -/
theorem GetMainModuleAddr_memo_hit (p : State StackID) (e : Env StackID)
    (hnz : p.m_start_address ≠ 0 ∨ p.m_end_address ≠ 0) :
    GetMainModuleAddr p e = some (true, p) ∧
    ∀ images : List Module, GetMainModuleAddr p { e with images := images } = some (true, p) :=
  ⟨GetMainModuleAddr_memo p e hnz, fun _ => GetMainModuleAddr_memo p _ hnz⟩

/-- C14, at a concrete input: the plan with bounds 0x1000 and 0x5000 stored, on a target
that reports no image at all. -/
theorem GetMainModuleAddr_memo_hit_witness :
    GetMainModuleAddr resolvedPlan (frameEnv 7 0x1204) = some (true, resolvedPlan) :=
  (GetMainModuleAddr_memo_hit resolvedPlan (frameEnv 7 0x1204) (Or.inl (by decide))).1

/-! ## A fresh plan -/

/-- C18: a plan fresh from its constructor is not stale: the constructor captures the
program counter as `m_instruction_addr` and the identity of frame 0 as `m_stack_id`, so
on a thread whose frame 0 has the identity and whose program counter has the value they
had at construction `IsPlanStale` returns `false`, for both values of `m_step_over`. -/
theorem new_IsPlanStale_false [LinearOrder StackID] (e0 : Env StackID)
    (step_over stop_other_threads : Bool) (p0 : State StackID)
    (hnew : new e0 step_over stop_other_threads = some p0)
    (start_frame : StackFrame StackID) (hstart : e0.frames[0]? = some start_frame)
    (e : Env StackID) (frame0 : StackFrame StackID) (h0 : e.frames[0]? = some frame0)
    (hid : frame0.stack_id = start_frame.stack_id) (hpc : e.pc = e0.pc) :
    IsPlanStale p0 e = some false ∧ IsPlanStale p0 e0 = some false ∧
    p0.m_instruction_addr = e0.pc ∧ p0.m_stack_id = start_frame.stack_id := by
  obtain ⟨_, _, _, _, _, _, _, haddr, _, sf, hsf, hsid, _⟩ :=
    new_some e0 step_over stop_other_threads p0 hnew
  rw [hstart] at hsf
  simp only [Option.some.injEq] at hsf
  subst hsf
  refine ⟨?_, ?_, haddr, hsid⟩
  · simp [IsPlanStale, h0, hid, hsid, hpc, haddr]
  · simp [IsPlanStale, hstart, hsid, haddr]

/-- C18, at a concrete input: the plan built on `scenarioEnv 0x400 10`, asked on the same
thread a moment later, stepping over calls and stepping into calls. -/
theorem new_IsPlanStale_false_witness :
    IsPlanStale freshPlan (scenarioEnv 0x400 11) = some false ∧
    (new (scenarioEnv 0x400 10) false true).bind (fun p => IsPlanStale p (scenarioEnv 0x400 11))
      = some false :=
  ⟨(new_IsPlanStale_false (scenarioEnv 0x400 10) true false freshPlan (by decide)
      { stack_id := 7, symbol := some "main" } (by decide)
      (scenarioEnv 0x400 11) { stack_id := 7, symbol := some "main" } (by decide)
      (by decide) (by decide)).1,
   by decide⟩

/-! ## What a call can change -/

/-- Every call other than `GetMainModuleAddr` and `ShouldStop` leaves the object as it is;
those two act as the methods of the same name. -/
theorem step_cases [LinearOrder StackID] (p : State StackID) (c : Call) (e : Env StackID)
    (r : Ret) (p1 : State StackID) (h : step p c e = some (r, p1)) :
    (p1 = p ∧ stopClaimed c r = false) ∨
    (∃ b, GetMainModuleAddr p e = some (b, p1) ∧ stopClaimed c r = false) ∨
    (∃ b, ShouldStop p e = some (b, p1) ∧ stopClaimed c r = b) := by
  cases c with
  | ValidatePlan =>
    simp only [step, Option.some.injEq, Prod.mk.injEq] at h
    exact Or.inl ⟨h.2.symm, by simp [stopClaimed]⟩
  | DoPlanExplainsStop =>
    simp only [step, Option.some.injEq, Prod.mk.injEq] at h
    exact Or.inl ⟨h.2.symm, by simp [stopClaimed]⟩
  | IsPlanStale =>
    cases hs : IsPlanStale p e with
    | none => simp [step, hs] at h
    | some b =>
      simp only [step, hs, Option.some.injEq, Prod.mk.injEq] at h
      exact Or.inl ⟨h.2.symm, by simp [stopClaimed]⟩
  | GetMainModuleAddr =>
    cases hs : GetMainModuleAddr p e with
    | none => simp [step, hs] at h
    | some bp =>
      obtain ⟨b, p2⟩ := bp
      simp only [step, hs, Option.some.injEq, Prod.mk.injEq] at h
      obtain ⟨_, hp⟩ := h
      subst hp
      exact Or.inr (Or.inl ⟨b, rfl, by simp [stopClaimed]⟩)
  | ShouldStop =>
    cases hs : ShouldStop p e with
    | none => simp [step, hs] at h
    | some bp =>
      obtain ⟨b, p2⟩ := bp
      simp only [step, hs, Option.some.injEq, Prod.mk.injEq] at h
      obtain ⟨hr, hp⟩ := h
      subst hp
      subst hr
      exact Or.inr (Or.inr ⟨b, rfl, by cases b <;> rfl⟩)
  | StopOthers =>
    simp only [step, Option.some.injEq, Prod.mk.injEq] at h
    exact Or.inl ⟨h.2.symm, by simp [stopClaimed]⟩
  | GetPlanRunState =>
    simp only [step, Option.some.injEq, Prod.mk.injEq] at h
    exact Or.inl ⟨h.2.symm, by simp [stopClaimed]⟩
  | WillStop =>
    simp only [step, Option.some.injEq, Prod.mk.injEq] at h
    exact Or.inl ⟨h.2.symm, by simp [stopClaimed]⟩
  | MischiefManaged =>
    simp only [step, Option.some.injEq, Prod.mk.injEq] at h
    obtain ⟨_, hp⟩ := h
    rw [(MischiefManaged_eq p).2] at hp
    exact Or.inl ⟨hp.symm, by simp [stopClaimed]⟩
  | GetDescription s level =>
    simp only [step, Option.some.injEq, Prod.mk.injEq] at h
    exact Or.inl ⟨h.2.symm, by simp [stopClaimed]⟩

/-- The resolution writes only the two bounds and the trace. -/
theorem GetMainModuleAddr_captured (p : State StackID) (e : Env StackID) (b : Bool)
    (p1 : State StackID) (h : GetMainModuleAddr p e = some (b, p1)) :
    p1.m_instruction_addr = p.m_instruction_addr ∧ p1.m_stack_id = p.m_stack_id ∧
    p1.m_parent_frame_id = p.m_parent_frame_id ∧
    p1.m_start_has_symbol = p.m_start_has_symbol ∧ p1.m_step_over = p.m_step_over ∧
    p1.m_stop_other_threads = p.m_stop_other_threads ∧
    p1.m_start_time = p.m_start_time ∧
    p1.m_takes_iteration_count = p.m_takes_iteration_count := by
  rcases (GetMainModuleAddr_some p e b p1 h).2 with ⟨_, hp⟩ | ⟨_, m0, m1, _, _, hp⟩
  · subst hp
    exact ⟨rfl, rfl, rfl, rfl, rfl, rfl, rfl, rfl⟩
  · subst hp
    exact ⟨rfl, rfl, rfl, rfl, rfl, rfl, rfl, rfl⟩

/-- The stop decision writes only the two bounds, the two completion flags and the
trace. -/
theorem ShouldStop_captured (p : State StackID) (e : Env StackID) (r : Bool)
    (p2 : State StackID) (h : ShouldStop p e = some (r, p2)) :
    p2.m_instruction_addr = p.m_instruction_addr ∧ p2.m_stack_id = p.m_stack_id ∧
    p2.m_parent_frame_id = p.m_parent_frame_id ∧
    p2.m_start_has_symbol = p.m_start_has_symbol ∧ p2.m_step_over = p.m_step_over ∧
    p2.m_stop_other_threads = p.m_stop_other_threads ∧
    p2.m_start_time = p.m_start_time ∧
    p2.m_takes_iteration_count = p.m_takes_iteration_count := by
  cases hg : GetMainModuleAddr p e with
  | none => simp [ShouldStop, hg] at h
  | some bp =>
    obtain ⟨b, p1⟩ := bp
    have hcap := GetMainModuleAddr_captured p e b p1 hg
    by_cases hin : p1.m_start_address ≤ e.pc ∧ e.pc ≤ p1.m_end_address
    · simp only [ShouldStop, hg, if_pos hin, Option.some.injEq, Prod.mk.injEq] at h
      obtain ⟨_, hp2⟩ := h
      subst hp2
      cases hd : p1.m_done <;> simpa [SetPlanComplete] using hcap
    · simp only [ShouldStop, hg, if_neg hin, Option.some.injEq, Prod.mk.injEq] at h
      obtain ⟨_, hp2⟩ := h
      subst hp2
      exact hcap

/-- No call writes a field the constructor captured. -/
theorem step_captured [LinearOrder StackID] (p : State StackID) (c : Call) (e : Env StackID)
    (r : Ret) (p1 : State StackID) (h : step p c e = some (r, p1)) :
    p1.m_instruction_addr = p.m_instruction_addr ∧ p1.m_stack_id = p.m_stack_id ∧
    p1.m_parent_frame_id = p.m_parent_frame_id ∧
    p1.m_start_has_symbol = p.m_start_has_symbol ∧ p1.m_step_over = p.m_step_over ∧
    p1.m_stop_other_threads = p.m_stop_other_threads ∧
    p1.m_start_time = p.m_start_time ∧
    p1.m_takes_iteration_count = p.m_takes_iteration_count := by
  rcases step_cases p c e r p1 h with ⟨hp, _⟩ | ⟨b, hg, _⟩ | ⟨b, hs, _⟩
  · subst hp
    exact ⟨rfl, rfl, rfl, rfl, rfl, rfl, rfl, rfl⟩
  · exact GetMainModuleAddr_captured p e b p1 hg
  · exact ShouldStop_captured p e b p1 hs

/-- No sequence of calls writes a field the constructor captured. -/
theorem run_captured [LinearOrder StackID] (cs : List (Call × Env StackID)) :
    ∀ (p : State StackID) (rs : List Ret) (p1 : State StackID),
      run p cs = some (rs, p1) →
      p1.m_instruction_addr = p.m_instruction_addr ∧ p1.m_stack_id = p.m_stack_id ∧
      p1.m_parent_frame_id = p.m_parent_frame_id ∧
      p1.m_start_has_symbol = p.m_start_has_symbol ∧ p1.m_step_over = p.m_step_over ∧
      p1.m_stop_other_threads = p.m_stop_other_threads ∧
      p1.m_start_time = p.m_start_time ∧
      p1.m_takes_iteration_count = p.m_takes_iteration_count := by
  induction cs with
  | nil =>
    intro p rs p1 h
    simp only [run, Option.some.injEq, Prod.mk.injEq] at h
    obtain ⟨_, hp⟩ := h
    subst hp
    exact ⟨rfl, rfl, rfl, rfl, rfl, rfl, rfl, rfl⟩
  | cons ce rest ih =>
    intro p rs p1 h
    obtain ⟨c, e⟩ := ce
    cases hs : step p c e with
    | none => simp [run, hs] at h
    | some rp =>
      obtain ⟨r, p2⟩ := rp
      cases hrest : run p2 rest with
      | none => simp [run, hs, hrest] at h
      | some rsp =>
        obtain ⟨rs2, p3⟩ := rsp
        simp only [run, hs, hrest, Option.some.injEq, Prod.mk.injEq] at h
        obtain ⟨_, hp⟩ := h
        subst hp
        obtain ⟨a1, a2, a3, a4, a5, a6, a7, a8⟩ := ih p2 rs2 p3 hrest
        obtain ⟨b1, b2, b3, b4, b5, b6, b7, b8⟩ := step_captured p c e r p2 hs
        exact ⟨a1.trans b1, a2.trans b2, a3.trans b3, a4.trans b4, a5.trans b5,
          a6.trans b6, a7.trans b7, a8.trans b8⟩

/-- With inverted stored bounds no call claims a stop or changes the bounds. -/
theorem step_inverted [LinearOrder StackID] (p : State StackID) (c : Call) (e : Env StackID)
    (r : Ret) (p1 : State StackID) (hinv : p.m_end_address < p.m_start_address)
    (h : step p c e = some (r, p1)) :
    stopClaimed c r = false ∧ p1 = p := by
  have hnz : p.m_start_address ≠ 0 ∨ p.m_end_address ≠ 0 := Or.inl (by omega)
  rcases step_cases p c e r p1 h with ⟨hp, hc⟩ | ⟨b, hg, hc⟩ | ⟨b, hs, hc⟩
  · exact ⟨hc, hp⟩
  · rw [GetMainModuleAddr_memo p e hnz] at hg
    simp only [Option.some.injEq, Prod.mk.injEq] at hg
    exact ⟨hc, hg.2.symm⟩
  · have hg := GetMainModuleAddr_memo p e hnz
    have hout : ¬ (p.m_start_address ≤ e.pc ∧ e.pc ≤ p.m_end_address) := by
      intro hin
      omega
    simp only [ShouldStop, hg, if_neg hout, Option.some.injEq, Prod.mk.injEq] at hs
    obtain ⟨hb, hp⟩ := hs
    rw [hc, ← hb]
    exact ⟨rfl, hp.symm⟩

/-- With inverted stored bounds no sequence of calls claims a stop or changes the
object. -/
theorem run_inverted [LinearOrder StackID] (cs : List (Call × Env StackID)) :
    ∀ (p : State StackID) (rs : List Ret) (p1 : State StackID),
      p.m_end_address < p.m_start_address → run p cs = some (rs, p1) →
      anyStopClaimed cs rs = false ∧ p1 = p := by
  induction cs with
  | nil =>
    intro p rs p1 _ h
    simp only [run, Option.some.injEq, Prod.mk.injEq] at h
    obtain ⟨hr, hp⟩ := h
    subst hr
    exact ⟨rfl, hp.symm⟩
  | cons ce rest ih =>
    intro p rs p1 hinv h
    obtain ⟨c, e⟩ := ce
    cases hs : step p c e with
    | none => simp [run, hs] at h
    | some rp =>
      obtain ⟨r, p2⟩ := rp
      cases hrest : run p2 rest with
      | none => simp [run, hs, hrest] at h
      | some rsp =>
        obtain ⟨rs2, p3⟩ := rsp
        simp only [run, hs, hrest, Option.some.injEq, Prod.mk.injEq] at h
        obtain ⟨hr, hp⟩ := h
        subst hr
        subst hp
        obtain ⟨hc, hp2⟩ := step_inverted p c e r p2 hinv hs
        subst hp2
        obtain ⟨hc2, hp3⟩ := ih p2 rs2 p3 hinv hrest
        exact ⟨by simp [anyStopClaimed, hc, hc2], hp3⟩

/-! ## The completion flags -/

/-- C12: the completion flags `m_done` and `m_plan_complete` are both false after
construction; no call of the host (`IsPlanStale`, `GetMainModuleAddr`, `ShouldStop`,
`MischiefManaged`, `GetDescription`, `DoPlanExplainsStop`, `StopOthers`, ...) and no
sequence of calls changes either of them from true to false; so after any sequence of
calls in which some `ShouldStop` has returned `true`, both flags are true. -/
theorem completion_flags_monotonic [LinearOrder StackID] (e0 : Env StackID)
    (step_over stop_other_threads : Bool) (p0 : State StackID)
    (hnew : new e0 step_over stop_other_threads = some p0) :
    (p0.m_done = false ∧ p0.m_plan_complete = false) ∧
    (∀ (p : State StackID) (c : Call) (e : Env StackID) (r : Ret) (p1 : State StackID),
      step p c e = some (r, p1) →
      (p.m_done = true → p1.m_done = true) ∧
      (p.m_plan_complete = true → p1.m_plan_complete = true)) ∧
    (∀ (p : State StackID) (cs : List (Call × Env StackID)) (rs : List Ret)
        (p1 : State StackID), run p cs = some (rs, p1) →
      (p.m_done = true → p1.m_done = true) ∧
      (p.m_plan_complete = true → p1.m_plan_complete = true)) ∧
    (∀ (cs : List (Call × Env StackID)) (rs : List Ret) (p1 : State StackID),
      run p0 cs = some (rs, p1) → anyStopClaimed cs rs = true →
      p1.m_done = true ∧ p1.m_plan_complete = true) := by
  obtain ⟨hd0, hc0, _⟩ := new_some e0 step_over stop_other_threads p0 hnew
  refine ⟨⟨hd0, hc0⟩, ?_, ?_, ?_⟩
  · intro p c e r p1 h
    obtain ⟨hd, hc, _⟩ := step_flags p c e r p1 h
    exact ⟨fun hp => by rw [hd, hp]; rfl, fun hp => by rw [hc, hp]; rfl⟩
  · intro p cs rs p1 h
    obtain ⟨hd, hc, _⟩ := run_flags cs p rs p1 h
    exact ⟨fun hp => by rw [hd, hp]; rfl, fun hp => by rw [hc, hp]; rfl⟩
  · intro cs rs p1 h hany
    obtain ⟨hd, hc, _⟩ := run_flags cs p0 rs p1 h
    exact ⟨by rw [hd, hany]; simp, by rw [hc, hany]; simp⟩

/-- C12, at a concrete input: the flags of the fresh plan, and the flags after the program
counter has reached the main region and further calls have been made. -/
theorem completion_flags_monotonic_witness :
    (freshPlan.m_done = false ∧ freshPlan.m_plan_complete = false) ∧
    (run freshPlan
      [(Call.ShouldStop, scenarioEnv 0x1200 11), (Call.IsPlanStale, scenarioEnv 0x1204 12),
       (Call.ShouldStop, scenarioEnv 0x500 13), (Call.MischiefManaged, scenarioEnv 0x500 13),
       (Call.StopOthers, scenarioEnv 0x500 13)]).map
      (fun x => (x.2.m_done, x.2.m_plan_complete)) = some (true, true) :=
  ⟨(completion_flags_monotonic (scenarioEnv 0x400 10) true false freshPlan (by decide)).1,
   by decide⟩

/-- C13: no call of the host and no sequence of calls writes `m_instruction_addr`,
`m_stack_id`, `m_parent_frame_id`, `m_start_has_symbol`, `m_step_over` or
`m_stop_other_threads` (nor `m_start_time`); so after any sequence of calls on a plan
fresh from its constructor `StopOthers` returns the `stop_other_threads` argument of the
constructor.  The sequence returns whenever every environment has a frame 0 and images
0 and 1. -/
theorem captured_fields_immutable [LinearOrder StackID] (e0 : Env StackID)
    (step_over stop_other_threads : Bool) (p0 : State StackID)
    (hnew : new e0 step_over stop_other_threads = some p0)
    (cs : List (Call × Env StackID)) :
    (∀ (p : State StackID) (c : Call) (e : Env StackID) (r : Ret) (p1 : State StackID),
      step p c e = some (r, p1) →
      p1.m_instruction_addr = p.m_instruction_addr ∧ p1.m_stack_id = p.m_stack_id ∧
      p1.m_parent_frame_id = p.m_parent_frame_id ∧
      p1.m_start_has_symbol = p.m_start_has_symbol ∧ p1.m_step_over = p.m_step_over ∧
      p1.m_stop_other_threads = p.m_stop_other_threads ∧
      p1.m_start_time = p.m_start_time) ∧
    (∀ (rs : List Ret) (p1 : State StackID), run p0 cs = some (rs, p1) →
      p1.m_instruction_addr = p0.m_instruction_addr ∧ p1.m_stack_id = p0.m_stack_id ∧
      p1.m_parent_frame_id = p0.m_parent_frame_id ∧
      p1.m_start_has_symbol = p0.m_start_has_symbol ∧
      p1.m_step_over = step_over ∧ p1.m_stop_other_threads = stop_other_threads ∧
      p1.m_start_time = p0.m_start_time ∧
      StopOthers p1 = stop_other_threads) ∧
    ((∀ c ∈ cs, 2 ≤ c.2.images.length ∧ c.2.frames ≠ []) →
      ∃ rs p1, run p0 cs = some (rs, p1)) := by
  obtain ⟨_, _, _, _, _, hso, hsot, _⟩ := new_some e0 step_over stop_other_threads p0 hnew
  refine ⟨?_, ?_, run_total cs p0⟩
  · intro p c e r p1 h
    obtain ⟨a1, a2, a3, a4, a5, a6, a7, _⟩ := step_captured p c e r p1 h
    exact ⟨a1, a2, a3, a4, a5, a6, a7⟩
  · intro rs p1 h
    obtain ⟨a1, a2, a3, a4, a5, a6, a7, _⟩ := run_captured cs p0 rs p1 h
    exact ⟨a1, a2, a3, a4, a5.trans hso, a6.trans hsot, a7, a6.trans hsot⟩

/-- C13, at a concrete input: a plan built with `stop_other_threads = true`, after a
sequence of calls that ends in `StopOthers`. -/
theorem captured_fields_immutable_witness :
    ((new (scenarioEnv 0x400 10) false true).bind (fun p => run p
      [(Call.IsPlanStale, scenarioEnv 0x404 11), (Call.ShouldStop, scenarioEnv 0x1200 12),
       (Call.MischiefManaged, scenarioEnv 0x1200 12),
       (Call.StopOthers, scenarioEnv 0x1200 12)])).map (fun x => x.1)
      = some [Ret.bool true, Ret.bool true, Ret.bool true, Ret.bool true] ∧
    ∃ rs p1, run freshPlan
      [(Call.IsPlanStale, scenarioEnv 0x404 11), (Call.ShouldStop, scenarioEnv 0x1200 12),
       (Call.MischiefManaged, scenarioEnv 0x1200 12),
       (Call.StopOthers, scenarioEnv 0x1200 12)] = some (rs, p1) :=
  ⟨by decide,
    (captured_fields_immutable (scenarioEnv 0x400 10) true false freshPlan (by decide)
      [(Call.IsPlanStale, scenarioEnv 0x404 11), (Call.ShouldStop, scenarioEnv 0x1200 12),
       (Call.MischiefManaged, scenarioEnv 0x1200 12),
       (Call.StopOthers, scenarioEnv 0x1200 12)]).2.2 (by decide)⟩

/-- C15: in every state reached from the constructor by a sequence of calls of the host
(in particular by `ShouldStop` and `MischiefManaged` calls), the flag `m_done` of the plan
and the flag `m_plan_complete` that `MischiefManaged` reads are equal, and
`MischiefManaged` returns their common value.  The sequence returns whenever every
environment has a frame 0 and images 0 and 1. -/
theorem m_done_eq_plan_complete [LinearOrder StackID] (e0 : Env StackID)
    (step_over stop_other_threads : Bool) (p0 : State StackID)
    (hnew : new e0 step_over stop_other_threads = some p0)
    (cs : List (Call × Env StackID)) :
    (∀ (rs : List Ret) (p1 : State StackID), run p0 cs = some (rs, p1) →
      (p1.m_done = true ↔ IsPlanComplete p1 = true) ∧
      p1.m_done = p1.m_plan_complete ∧
      (MischiefManaged p1).1 = p1.m_done) ∧
    ((∀ c ∈ cs, 2 ≤ c.2.images.length ∧ c.2.frames ≠ []) →
      ∃ rs p1, run p0 cs = some (rs, p1)) := by
  obtain ⟨hd0, hc0, _⟩ := new_some e0 step_over stop_other_threads p0 hnew
  refine ⟨?_, run_total cs p0⟩
  intro rs p1 h
  obtain ⟨hd, hc, _⟩ := run_flags cs p0 rs p1 h
  have heq : p1.m_done = p1.m_plan_complete := by
    rw [hd, hc, hd0, hc0]
  refine ⟨?_, heq, ?_⟩
  · rw [IsPlanComplete, heq]
  · rw [(MischiefManaged_eq p1).1, IsPlanComplete, heq]

/-- C15, at a concrete input: a sequence of `ShouldStop` and `MischiefManaged` calls on
the fresh plan, which returns with both flags set. -/
theorem m_done_eq_plan_complete_witness :
    (run freshPlan
      [(Call.ShouldStop, scenarioEnv 0x500 11), (Call.MischiefManaged, scenarioEnv 0x500 11),
       (Call.ShouldStop, scenarioEnv 0x1200 12),
       (Call.MischiefManaged, scenarioEnv 0x1200 12)]).map
      (fun x => (x.2.m_done, x.2.m_plan_complete)) = some (true, true) ∧
    ∃ rs p1, run freshPlan
      [(Call.ShouldStop, scenarioEnv 0x500 11), (Call.MischiefManaged, scenarioEnv 0x500 11),
       (Call.ShouldStop, scenarioEnv 0x1200 12),
       (Call.MischiefManaged, scenarioEnv 0x1200 12)] = some (rs, p1) :=
  ⟨by decide,
    (m_done_eq_plan_complete (scenarioEnv 0x400 10) true false freshPlan (by decide)
      [(Call.ShouldStop, scenarioEnv 0x500 11), (Call.MischiefManaged, scenarioEnv 0x500 11),
       (Call.ShouldStop, scenarioEnv 0x1200 12),
       (Call.MischiefManaged, scenarioEnv 0x1200 12)]).2 (by decide)⟩

/-! ## Degenerate main regions -/

/-- C16, as stated, fails: on the plan fresh from its constructor, a `ShouldStop` at
program counter 0 on images whose lowest sections are both at load address 0 stores the
bounds (0, 0), returns `true` and sets both completion flags; the next `ShouldStop`, on
images in inverted order, finds both stored bounds zero, resolves the region again to
(0x5000, 0x1000) and returns `false`; the region is now inverted, yet the completion
flags are set and `MischiefManaged` returns `true`. -/
theorem inverted_region_after_zero_region_stop :
    new (scenarioEnv 0x400 10) true false = some freshPlan ∧
    (run freshPlan
      [(Call.ShouldStop, zeroEnv 0 11), (Call.ShouldStop, invertedEnv 0x3000 12),
       (Call.MischiefManaged, invertedEnv 0x3000 12)]).map
      (fun x => (x.1, x.2.m_start_address, x.2.m_end_address, x.2.m_done,
        x.2.m_plan_complete))
      = some ([Ret.bool true, Ret.bool false, Ret.bool true], 0x5000, 0x1000, true, true) ∧
    (run freshPlan [(Call.ShouldStop, zeroEnv 0 11)]).map
      (fun x => (x.1, x.2.m_start_address, x.2.m_end_address, x.2.m_done,
        x.2.m_plan_complete))
      = some ([Ret.bool true], 0, 0, true, true) := by
  refine ⟨by decide, by decide, by decide⟩

/-- C16, amended: with inverted stored bounds (`m_end_address < m_start_address`)
`ShouldStop` returns `false` at every program counter and changes nothing.  So when a
plan whose completion flags are not set (no earlier `ShouldStop` has returned `true`, as
on the plan fresh from the constructor) resolves its main region on images whose lowest
load addresses are inverted, that `ShouldStop` and every later one return `false`, no
sequence of calls sets a completion flag, and `MischiefManaged` never returns `true`. -/
theorem ShouldStop_inverted_region_never_stops [LinearOrder StackID] (p : State StackID)
    (hz : p.m_start_address = 0 ∧ p.m_end_address = 0)
    (hd : p.m_done = false) (hc : p.m_plan_complete = false)
    (e : Env StackID) (m0 m1 : Module)
    (h0 : e.images[0]? = some m0) (h1 : e.images[1]? = some m1)
    (hinv : lowestLoadAddress m1 < lowestLoadAddress m0) :
    (∀ (q : State StackID) (e2 : Env StackID), q.m_end_address < q.m_start_address →
      ShouldStop q e2 = some (false, q)) ∧
    ∃ p1, GetMainModuleAddr p e = some (true, p1) ∧
      p1.m_start_address = lowestLoadAddress m0 ∧
      p1.m_end_address = lowestLoadAddress m1 ∧
      ShouldStop p e = some (false, p1) ∧
      (∀ e2, ShouldStop p1 e2 = some (false, p1)) ∧
      (MischiefManaged p1).1 = false ∧
      (∀ (cs : List (Call × Env StackID)) (rs : List Ret) (p2 : State StackID),
        run p1 cs = some (rs, p2) →
        anyStopClaimed cs rs = false ∧ p2.m_done = false ∧ p2.m_plan_complete = false ∧
        (MischiefManaged p2).1 = false) ∧
      (∀ cs : List (Call × Env StackID),
        (∀ c ∈ cs, 2 ≤ c.2.images.length ∧ c.2.frames ≠ []) →
        ∃ rs p2, run p1 cs = some (rs, p2)) := by
  have hgen : ∀ (q : State StackID) (e2 : Env StackID),
      q.m_end_address < q.m_start_address → ShouldStop q e2 = some (false, q) := by
    intro q e2 hq
    have hg := GetMainModuleAddr_memo q e2 (Or.inl (by omega))
    have hout : ¬ (q.m_start_address ≤ e2.pc ∧ e2.pc ≤ q.m_end_address) := by
      intro hin
      omega
    simp only [ShouldStop, hg, if_neg hout]
  have hres := GetMainModuleAddr_resolve p e m0 m1 hz h0 h1
  refine ⟨hgen, _, hres, rfl, rfl, ?_, ?_, ?_, ?_, ?_⟩
  · have hout : ¬ (lowestLoadAddress m0 ≤ e.pc ∧ e.pc ≤ lowestLoadAddress m1) := by
      intro hin
      omega
    simp only [ShouldStop, hres, if_neg hout]
  · intro e2
    exact hgen _ e2 hinv
  · rw [(MischiefManaged_eq _).1, IsPlanComplete]
    exact hc
  · intro cs rs p2 hrun
    obtain ⟨hany, hp2⟩ := run_inverted cs _ rs p2 hinv hrun
    subst hp2
    refine ⟨hany, hd, hc, ?_⟩
    rw [(MischiefManaged_eq _).1, IsPlanComplete]
    exact hc
  · intro cs
    exact run_total cs _

/-- C16 amended, at a concrete input: the fresh plan on images whose lowest load addresses are
0x5000 (image 0) and 0x1000 (image 1); program counters in and around that range all
give `false`, and the poll gives `false`. -/
theorem ShouldStop_inverted_region_never_stops_witness :
    new (scenarioEnv 0x400 10) true false = some freshPlan ∧
    (run freshPlan
      [(Call.ShouldStop, invertedEnv 0x500 11), (Call.ShouldStop, invertedEnv 0x1000 12),
       (Call.ShouldStop, invertedEnv 0x3000 13), (Call.ShouldStop, invertedEnv 0x5000 14),
       (Call.ShouldStop, invertedEnv 0x7000 15), (Call.MischiefManaged, invertedEnv 0x7000 15)]).map
      (fun x => (x.1, x.2.m_start_address, x.2.m_end_address, x.2.m_done))
      = some ([Ret.bool false, Ret.bool false, Ret.bool false, Ret.bool false,
          Ret.bool false, Ret.bool false], 0x5000, 0x1000, false) ∧
    ∃ p1, GetMainModuleAddr freshPlan (invertedEnv 0x500 11) = some (true, p1) ∧
      ShouldStop freshPlan (invertedEnv 0x500 11) = some (false, p1) :=
  ⟨by decide, by decide,
    (ShouldStop_inverted_region_never_stops freshPlan ⟨by decide, by decide⟩ (by decide)
      (by decide) (invertedEnv 0x500 11)
      { sections := [{ load_base_address := 0x5000 }, { load_base_address := 0x6000 }] }
      { sections := [{ load_base_address := 0x2000 }, { load_base_address := 0x1000 }] }
      (by decide) (by decide) (by decide)).2.elim
      (fun p1 h => ⟨p1, h.1, h.2.2.2.1⟩)⟩

/-- C17: for a loaded image without sections `GetModuleBaseAddr` returns `UINT64_MAX`,
which is `2^64 - 1`.  So when the main region is resolved (both stored bounds zero) on a
target whose image 1 has no sections, `m_end_address` becomes `2^64 - 1`, and that
`ShouldStop` and every later one return `true` at every (64-bit) program counter that is
at least `m_start_address`. -/
theorem GetModuleBaseAddr_no_sections_UINT64_MAX (p : State StackID)
    (hz : p.m_start_address = 0 ∧ p.m_end_address = 0)
    (e : Env StackID) (m0 m1 : Module)
    (h0 : e.images[0]? = some m0) (h1 : e.images[1]? = some m1)
    (hempty : m1.sections = []) :
    UINT64_MAX = 2 ^ 64 - 1 ∧
    (∀ (q : State StackID) (e2 : Env StackID) (index : Nat) (module : Module),
      e2.images[index]? = some module → module.sections = [] →
      ∃ q1, GetModuleBaseAddr q e2 index = some (2 ^ 64 - 1, q1)) ∧
    ∃ p1, GetMainModuleAddr p e = some (true, p1) ∧
      p1.m_start_address = lowestLoadAddress m0 ∧
      p1.m_end_address = 2 ^ 64 - 1 ∧
      (p1.m_start_address ≤ e.pc → e.pc ≤ UINT64_MAX →
        ∃ p2, ShouldStop p e = some (true, p2)) ∧
      (∀ e2 : Env StackID, p1.m_start_address ≤ e2.pc → e2.pc ≤ UINT64_MAX →
        ∃ p2, ShouldStop p1 e2 = some (true, p2)) := by
  have hmax : lowestLoadAddress m1 = 2 ^ 64 - 1 := by
    simp [lowestLoadAddress, hempty, UINT64_MAX]
  have hres := GetMainModuleAddr_resolve p e m0 m1 hz h0 h1
  refine ⟨rfl, ?_, _, hres, rfl, hmax, ?_, ?_⟩
  · intro q e2 index module hmod hnil
    simp only [GetModuleBaseAddr, hmod, hnil, List.foldl_nil, UINT64_MAX]
    exact ⟨_, rfl⟩
  · intro hlo hhi
    have hin : lowestLoadAddress m0 ≤ e.pc ∧ e.pc ≤ lowestLoadAddress m1 := by
      refine ⟨hlo, ?_⟩
      rw [hmax]
      exact hhi
    simp only [ShouldStop, hres, if_pos hin]
    exact ⟨_, rfl⟩
  · have key : ∀ q : State StackID, q.m_end_address = 2 ^ 64 - 1 → ∀ e2 : Env StackID,
        q.m_start_address ≤ e2.pc → e2.pc ≤ UINT64_MAX →
        ∃ p2, ShouldStop q e2 = some (true, p2) := by
      intro q hq e2 hlo hhi
      have hnz : q.m_end_address ≠ 0 := by
        rw [hq]
        decide
      obtain ⟨r, p2, hs, hlo2, hhi2, _⟩ := ShouldStop_memo q e2 (Or.inr hnz)
      have hr := ShouldStop_result q e2 r p2 hs
      rw [hlo2, hhi2, hq] at hr
      have htrue : r = true := hr.mpr ⟨hlo, hhi⟩
      subst htrue
      exact ⟨p2, hs⟩
    exact key _ hmax

/-- C17, at a concrete input: image 1 without sections; the program counters 0x1000 and
`2^64 - 1` stop the plan, 0xfff does not. -/
theorem GetModuleBaseAddr_no_sections_UINT64_MAX_witness :
    (run freshPlan
      [(Call.ShouldStop, noSectionEnv 0xfff 11), (Call.ShouldStop, noSectionEnv 0x1000 12),
       (Call.ShouldStop, noSectionEnv 0xffffffffffffffff 13)]).map
      (fun x => (x.1, x.2.m_start_address, x.2.m_end_address))
      = some ([Ret.bool false, Ret.bool true, Ret.bool true], 0x1000, 0xffffffffffffffff) ∧
    ∃ p1, GetMainModuleAddr freshPlan (noSectionEnv 0xfff 11) = some (true, p1) ∧
      p1.m_end_address = 2 ^ 64 - 1 :=
  ⟨by decide,
    (GetModuleBaseAddr_no_sections_UINT64_MAX freshPlan ⟨by decide, by decide⟩
      (noSectionEnv 0xfff 11) { sections := [{ load_base_address := 0x1000 }] }
      { sections := [] } (by decide) (by decide) (by decide)).2.2.elim
      (fun p1 h => ⟨p1, h.1, h.2.2.1⟩)⟩

end ThreadPlanGotoUser
